import Mathlib

/-
Verification of the bid-packet text-structuring pipeline: a shallow
embedding of the parser (pages → sequence blocks → duty days → flight
legs, plus month/year inference and time/date normalisation) as total
Lean functions over lists of characters, together with theorems about
the embedded functions.

Lines and tokens are `List Char`; the JavaScript regular-expression
tests used by the source are embedded as hand-written scanners with the
same matching semantics (leftmost match, greedy quantifiers with the
finite backtracking each pattern allows).
-/

namespace PbsMvp

abbrev Str := List Char

/-- isWsC models the whitespace class used by the source's trim and
regex whitespace (ASCII subset: space, tab, LF, CR, VT, FF). -/
def isWsC (c : Char) : Bool :=
  c = ' ' || c = '\t' || c = '\n' || c = '\r' || c = '\x0b' || c = '\x0c'

def notWsC (c : Char) : Bool := !isWsC c

def isDigitC (c : Char) : Bool := 48 ≤ c.toNat && c.toNat ≤ 57

def isUpperC (c : Char) : Bool := 65 ≤ c.toNat && c.toNat ≤ 90

/-- Word character of the regex word-boundary test: letters, digits, underscore. -/
def isWordC (c : Char) : Bool :=
  (65 ≤ c.toNat && c.toNat ≤ 90) || (97 ≤ c.toNat && c.toNat ≤ 122) || isDigitC c || c = '_'

def upC (c : Char) : Char := c.toUpper

/-- Case-insensitive character comparison (via uppercase). -/
def eqCI (a b : Char) : Bool := upC a = upC b

/-- trim of the source: drop whitespace from both ends of the line. -/
def trim (l : Str) : Str :=
  ((l.dropWhile isWsC).reverse.dropWhile isWsC).reverse

/-- Accumulator pass of the whitespace tokeniser: `cur` is the
non-whitespace run read so far, emitted when whitespace or the end of
the line is reached. -/
def nonWsRunsAux : Str → Str → List Str
  | [], cur => if cur.isEmpty then [] else [cur]
  | c :: rest, cur =>
      if isWsC c then (if cur.isEmpty then [] else [cur]) ++ nonWsRunsAux rest []
      else nonWsRunsAux rest (cur ++ [c])

/-- Maximal runs of non-whitespace characters, in order: the tokens of
`split(/\s+/)` after empty entries are filtered out. -/
def nonWsRuns (l : Str) : List Str := nonWsRunsAux l []

/-- split on runs of whitespace exactly as `split(/\s+/)` does: like
`nonWsRuns`, but a line starting (ending) with whitespace contributes a
leading (trailing) empty entry, and the empty line yields one empty entry. -/
def jsSplitWs (l : Str) : List Str :=
  match l with
  | [] => [[]]
  | c :: _ =>
      (if isWsC c then [[]] else []) ++ nonWsRuns l ++
        (match l.getLast? with
         | some d => if isWsC d then [[]] else []
         | none => [])

/-- Decimal digits with an explicit recursion bound (the bound only
needs to exceed the number of digits, and the number itself does). -/
def natDigitsAux : ℕ → ℕ → Str
  | 0, _ => []
  | fuel + 1, n =>
      if n < 10 then [Char.ofNat (48 + n)]
      else natDigitsAux fuel (n / 10) ++ [Char.ofNat (48 + n % 10)]

/-- Decimal digits of a natural number, most significant first. -/
def natDigits (n : ℕ) : Str := natDigitsAux (n + 1) n

/-- toString of a JavaScript number that is an integer. -/
def intStr (z : ℤ) : Str :=
  if z < 0 then '-' :: natDigits z.natAbs else natDigits z.toNat

/-- padStart(n, "0") of the source. -/
def padZero (n : ℕ) (s : Str) : Str :=
  List.replicate (n - s.length) '0' ++ s

/-- Numeric value of a digit string (the digits already validated). -/
def natOfDigits (s : Str) : ℕ :=
  s.foldl (fun n c => 10 * n + (c.toNat - 48)) 0

/-- Value of a decimal literal with integer digits `i` and fractional
digits `f` (the capture of a `\d+(\.\d+)?` group). -/
def decVal (i f : Str) : ℚ :=
  (natOfDigits i : ℚ) + (natOfDigits f : ℚ) / (10 : ℚ) ^ f.length

/-- contains check: some suffix of `l` starts with `pat` under `eq`. -/
def containsBy (eq : Char → Char → Bool) (pat : Str) (l : Str) : Bool :=
  match l with
  | [] => pat.isEmpty
  | _ :: rest => startsBy eq pat l || containsBy eq pat rest
where
  startsBy (eq : Char → Char → Bool) (pat l : Str) : Bool :=
    match pat, l with
    | [], _ => true
    | _ :: _, [] => false
    | p :: ps, c :: cs => eq p c && startsBy eq ps cs

/-- startsBy with plain character equality. -/
def startsWithStr (pat l : Str) : Bool := containsBy.startsBy (fun a b => a = b) pat l

/-- startsBy up to character case. -/
def startsCI (pat l : Str) : Bool := containsBy.startsBy eqCI pat l

/-- Leftmost-match regex search: try the per-position matcher `step` at
every start position of `l` in order (including the final empty
position, as a regex engine does) and return the first success. -/
def searchPos {α : Type} (step : Str → Option α) : Str → Option α
  | [] => step []
  | c :: rest =>
      match step (c :: rest) with
      | some v => some v
      | none => searchPos step rest

/-- boundary test after a literal: the `\b` succeeds when the text ends
or the next character is not a word character. -/
def bAfter : Str → Bool
  | [] => true
  | c :: _ => !isWordC c

/-- test of `^SEQ\b`. -/
def isSeqStart (l : Str) : Bool :=
  startsWithStr ['S', 'E', 'Q'] l && bAfter (l.drop 3)

/-- test of `^RPT\b`. -/
def isRptStart (l : Str) : Bool :=
  startsWithStr ['R', 'P', 'T'] l && bAfter (l.drop 3)

/-- test of `^RLS\b`. -/
def isRlsStart (l : Str) : Bool :=
  startsWithStr ['R', 'L', 'S'] l && bAfter (l.drop 3)

/-- test of `\bTTL\b`: a word-bounded occurrence of TTL anywhere. -/
def hasTTL : Str → Bool := go none
where
  go : Option Char → Str → Bool
    | prev, 'T' :: 'T' :: 'L' :: rest =>
        (bPrev prev && bAfter rest) || go (some 'T') ('T' :: 'L' :: rest)
    | prev, c :: rest => go (some c) rest
    | _, [] => false
  bPrev : Option Char → Bool
    | none => true
    | some c => !isWordC c

/-- isHotelLine of the source: the line contains HOTEL case-insensitively. -/
def isHotelLine (l : Str) : Bool := containsBy eqCI ['H', 'O', 'T', 'E', 'L'] l

/-- Consume one-or-more characters satisfying `p` (a greedy `X+`),
returning the rest of the input. -/
def chompRun (p : Char → Bool) : Str → Option Str
  | [] => none
  | c :: rest => if p c then some (rest.dropWhile p) else none

/-- Consume one literal character. -/
def chompChar (x : Char) : Str → Option Str
  | [] => none
  | c :: rest => if c = x then some rest else none

/-- isLegLine of the source: test of `^\d+\s+\d+\/\d+\s+\d+\s+\d+`
(day number, date token, then two more integer tokens). -/
def isLegLine (l : Str) : Bool :=
  (do
    let r1 ← chompRun isDigitC l
    let r2 ← chompRun isWsC r1
    let r3 ← chompRun isDigitC r2
    let r4 ← chompChar '/' r3
    let r5 ← chompRun isDigitC r4
    let r6 ← chompRun isWsC r5
    let r7 ← chompRun isDigitC r6
    let r8 ← chompRun isWsC r7
    let _ ← chompRun isDigitC r8
    pure ()).isSome

/-- Capture of `^(\d+)`: the leading digit run. -/
def leadingDigits (l : Str) : Str := l.takeWhile isDigitC

/-- Length of the digit run at the head of the input. -/
def digitCount (l : Str) : ℕ := (l.takeWhile isDigitC).length

/-- Capture of `([0-9]{3,4}\/[0-9]{3,4}|[0-9]{3,4})` at the current
position, with the regex's greedy/backtracking semantics: the first
alternative succeeds exactly when the leading digit run has length 3 or
4, is followed by a slash and then at least 3 more digits (of which the
greedy `{3,4}` takes at most 4); otherwise the second alternative takes
the first min(run, 4) digits of a run of at least 3. -/
def timeAlt (cs : Str) : Option Str :=
  let r := digitCount cs
  if r < 3 then none
  else if r ≤ 4 && decide ((cs.drop r).head? = some '/')
      && 3 ≤ digitCount (cs.drop (r + 1)) then
    some (cs.take r ++ '/' :: (cs.drop (r + 1)).take (min (digitCount (cs.drop (r + 1))) 4))
  else some (cs.take (min r 4))

/-- parseReport's captured time: search of `RPT\s+([0-9]{3,4}\/[0-9]{3,4}|[0-9]{3,4})`. -/
def reportTimeOf (l : Str) : Option Str :=
  searchPos
    (fun s =>
      match s with
      | 'R' :: 'P' :: 'T' :: tl => (chompRun isWsC tl).bind timeAlt
      | _ => none)
    l

/-- parseRelease's captured time: search of `RLS\s+([0-9]{3,4}\/[0-9]{3,4}|[0-9]{3,4})`. -/
def releaseTimeOf (l : Str) : Option Str :=
  searchPos
    (fun s =>
      match s with
      | 'R' :: 'L' :: 'S' :: tl => (chompRun isWsC tl).bind timeAlt
      | _ => none)
    l

/-- Value of `\d+(?:\.\d+)?` at the current position: a greedy digit
run, with a fractional part only when a dot followed by a digit comes
next. -/
def decNumHere (l : Str) : Option ℚ :=
  match l with
  | [] => none
  | c :: _ =>
      if isDigitC c then
        let i := l.takeWhile isDigitC
        match l.dropWhile isDigitC with
        | '.' :: r2 =>
            match r2 with
            | d :: _ =>
                if isDigitC d then some (decVal i (r2.takeWhile isDigitC))
                else some (decVal i [])
            | [] => some (decVal i [])
        | _ => some (decVal i [])
      else none

/-- Search of `KEY\s*(\d+(?:\.\d+)?)` (case-insensitive when `ci`),
returning the numeric value of the capture. -/
def searchKeyNum (key : Str) (ci : Bool) (l : Str) : Option ℚ :=
  searchPos
    (fun s =>
      if (if ci then startsCI key s else startsWithStr key s) then
        decNumHere ((s.drop key.length).dropWhile isWsC)
      else none)
    l

/-- test of `^\d+$`. -/
def isPureNumeric (t : Str) : Bool := !t.isEmpty && t.all isDigitC

/-- Crew-position codes of the header pattern `^(CA|FO|RL|AP|RS)(\d+)`. -/
inductive PosCode
  | CA | FO | RL | AP | RS
deriving DecidableEq

/-- Capture of `^(CA|FO|RL|AP|RS)(\d+)` on a header token. -/
def posMatch (t : Str) : Option (PosCode × ℕ) :=
  match t with
  | 'C' :: 'A' :: r => tail r PosCode.CA
  | 'F' :: 'O' :: r => tail r PosCode.FO
  | 'R' :: 'L' :: r => tail r PosCode.RL
  | 'A' :: 'P' :: r => tail r PosCode.AP
  | 'R' :: 'S' :: r => tail r PosCode.RS
  | _ => none
where
  tail (r : Str) (code : PosCode) : Option (PosCode × ℕ) :=
    match r with
    | d :: _ => if isDigitC d then some (code, natOfDigits (r.takeWhile isDigitC)) else none
    | [] => none

/-- MONTHS of the source: the twelve 3-letter month abbreviations. -/
def MONTHS : List Str :=
  [['J','A','N'], ['F','E','B'], ['M','A','R'], ['A','P','R'],
   ['M','A','Y'], ['J','U','N'], ['J','U','L'], ['A','U','G'],
   ['S','E','P'], ['O','C','T'], ['N','O','V'], ['D','E','C']]

/-- The full month names of the month/year inferencer's second pattern. -/
def FULLMONTHS : List Str :=
  [['J','A','N','U','A','R','Y'], ['F','E','B','R','U','A','R','Y'],
   ['M','A','R','C','H'], ['A','P','R','I','L'], ['M','A','Y'],
   ['J','U','N','E'], ['J','U','L','Y'], ['A','U','G','U','S','T'],
   ['S','E','P','T','E','M','B','E','R'], ['O','C','T','O','B','E','R'],
   ['N','O','V','E','M','B','E','R'], ['D','E','C','E','M','B','E','R']]

def UNKNOWN : Str := ['U','N','K','N','O','W','N']

/-- First name of the list matching case-insensitively at the head of
`l`, with the rest of the input. In both of the source's alternations
(full names, 3-letter abbreviations) no name is a prefix of another, so
first-in-list is the regex's alternative order. -/
def tryNames (names : List Str) (l : Str) : Option (Str × Str) :=
  match names with
  | [] => none
  | n :: ns => if startsCI n l then some (n, l.drop n.length) else tryNames ns l

/-- Capture of `([0-9]{4})` at the current position. -/
def fourDigitsHere (l : Str) : Option ℕ :=
  match l with
  | a :: b :: c :: d :: _ =>
      if isDigitC a && isDigitC b && isDigitC c && isDigitC d then
        some (natOfDigits [a, b, c, d])
      else none
  | _ => none

/-- Search of `([0-9]{4})`: the first four consecutive digits anywhere. -/
def fourDigitSearch (l : Str) : Option ℕ := searchPos fourDigitsHere l

/-- JavaScript Number() on a string, as far as the pipeline exercises
it: whitespace-trimmed; empty means 0; an optional sign, then a decimal
literal (digits with optional fraction and optional exponent) or a
binary/octal/hex literal. Anything else (including Infinity) is mapped
to none, which the callers treat as a non-finite result. -/
def jsNumberQ (s : Str) : Option ℚ :=
  let t := trim s
  if t.isEmpty then some 0
  else
    match t with
    | '+' :: r => core r
    | '-' :: r => (core r).map Neg.neg
    | _ => core t
where
  radixVal (b : ℕ) (digs : Str) (valOf : Char → Option ℕ) : Option ℚ :=
    if digs.isEmpty then none
    else
      digs.foldl
        (fun acc c =>
          match acc, valOf c with
          | some a, some v => some (a * b + v)
          | _, _ => none)
        (some (0 : ℚ))
  hexDigitVal (c : Char) : Option ℕ :=
    if isDigitC c then some (c.toNat - 48)
    else if 'a' ≤ c && c ≤ 'f' then some (c.toNat - 87)
    else if 'A' ≤ c && c ≤ 'F' then some (c.toNat - 55)
    else none
  binDigitVal (c : Char) : Option ℕ :=
    if c = '0' then some 0 else if c = '1' then some 1 else none
  octDigitVal (c : Char) : Option ℕ :=
    if '0' ≤ c && c ≤ '7' then some (c.toNat - 48) else none
  expPart (r : Str) : Option ℤ :=
    match r with
    | [] => some 0
    | 'e' :: r2 => expNum r2
    | 'E' :: r2 => expNum r2
    | _ => none
  expNum (r : Str) : Option ℤ :=
    match r with
    | '+' :: d => if isPureNumeric d then some (natOfDigits d : ℤ) else none
    | '-' :: d => if isPureNumeric d then some (-(natOfDigits d : ℤ)) else none
    | _ => if isPureNumeric r then some (natOfDigits r : ℤ) else none
  core (t : Str) : Option ℚ :=
    match t with
    | '0' :: 'x' :: r => radixVal 16 r hexDigitVal
    | '0' :: 'X' :: r => radixVal 16 r hexDigitVal
    | '0' :: 'o' :: r => radixVal 8 r octDigitVal
    | '0' :: 'O' :: r => radixVal 8 r octDigitVal
    | '0' :: 'b' :: r => radixVal 2 r binDigitVal
    | '0' :: 'B' :: r => radixVal 2 r binDigitVal
    | _ =>
        match t with
        | '.' :: r =>
            let f := r.takeWhile isDigitC
            if f.isEmpty then none
            else (expPart (r.dropWhile isDigitC)).map (fun e => decVal [] f * (10 : ℚ) ^ e)
        | _ =>
            let i := t.takeWhile isDigitC
            if i.isEmpty then none
            else
              match t.dropWhile isDigitC with
              | '.' :: r =>
                  let f := r.takeWhile isDigitC
                  (expPart (r.dropWhile isDigitC)).map (fun e => decVal i f * (10 : ℚ) ^ e)
              | rest => (expPart rest).map (fun e => decVal i [] * (10 : ℚ) ^ e)

/-- Math.round: round half toward positive infinity, that is the floor
of the value plus one half, here written as integer division of the
numerator by the (positive) denominator so that it evaluates. -/
def jsRound (q : ℚ) : ℤ := (q + 1 / 2).num / ((q + 1 / 2).den : ℤ)

/-- hoursToClock of the source on a present, finite numeric value:
multiply by 60, round to the nearest minute, floor-divide into hours,
truncated-remainder into minutes, zero-pad each to at least 2 digits. -/
def hoursToClockQ (q : ℚ) : Str :=
  let totalMinutes := jsRound (q * 60)
  let hours := Int.fdiv totalMinutes 60
  let minutes := Int.tmod totalMinutes 60
  padZero 2 (intStr hours) ++ ':' :: padZero 2 (intStr minutes)

/-- hoursToClock on an optional numeric value (undefined/null and
non-finite values yield none). -/
def hoursToClock : Option ℚ → Option Str
  | none => none
  | some q => some (hoursToClockQ q)

/-- hoursToClock applied to an optional string (the source coerces the
string with Number() and rejects non-finite results). -/
def hoursToClockStr (v : Option Str) : Option Str :=
  match v with
  | none => none
  | some s =>
      match jsNumberQ s with
      | none => none
      | some q => some (hoursToClockQ q)

/-- parseClock of the source: a falsy input yields none; the segment
before any slash must be exactly 3 or 4 digits; it is left-padded to 4
and split as HH:MM. -/
def parseClock (v : Option Str) : Option Str :=
  match v with
  | none => none
  | some s =>
      if s.isEmpty then none
      else
        let clean := s.takeWhile (fun c => c ≠ '/')
        if (clean.length = 3 || clean.length = 4) && clean.all isDigitC then
          let padded := padZero 4 clean
          some (padded.take 2 ++ ':' :: padded.drop 2)
        else none

/-- Days from the Unix epoch of a proleptic Gregorian date with 1-based
month in 1..12 (day may lie outside the month; the count is linear in
`d`, which is how Date.UTC normalises out-of-range day numbers). -/
def daysFromCivil (y m d : ℤ) : ℤ :=
  let y2 := y - (if m ≤ 2 then 1 else 0)
  let era := Int.fdiv y2 400
  let yoe := y2 - era * 400
  let mp := if 2 < m then m - 3 else m + 9
  let doy := Int.fdiv (153 * mp + 2) 5 + d - 1
  let doe := yoe * 365 + Int.fdiv yoe 4 - Int.fdiv yoe 100 + doy
  era * 146097 + doe - 719468

/-- Proleptic Gregorian date (year, 1-based month, day) of a count of
days from the Unix epoch. -/
def civilFromDays (z0 : ℤ) : ℤ × ℤ × ℤ :=
  let z := z0 + 719468
  let era := Int.fdiv z 146097
  let doe := z - era * 146097
  let yoe := Int.fdiv (doe - Int.fdiv doe 1460 + Int.fdiv doe 36524 - Int.fdiv doe 146096) 365
  let y := yoe + era * 400
  let doy := doe - (365 * yoe + Int.fdiv yoe 4 - Int.fdiv yoe 100)
  let mp := Int.fdiv (5 * doy + 2) 153
  let d := doy - Int.fdiv (153 * mp + 2) 5 + 1
  let m := if mp < 10 then mp + 3 else mp - 9
  (y + (if m ≤ 2 then 1 else 0), m, d)

/-- Date.UTC with a 0-based month index that may lie outside 0..11 and
a day that may lie outside the month, as the source uses it: normalise
the month into the year first, then count days. -/
def jsDateUTC (y jsMonth d : ℤ) : ℤ :=
  daysFromCivil (y + Int.fdiv jsMonth 12) (Int.emod jsMonth 12 + 1) d

/-- Zero-padded decimal rendering of a nonnegative year/month/day part. -/
def padNat (w : ℕ) (n : ℕ) : Str := padZero w (natDigits n)

/-- toISOString().slice(0, 10) of the date at `days` from the epoch:
years 0..9999 render as YYYY-MM-DD; a year outside that range uses the
expanded six-digit form, of which the first ten characters keep only
the sign, year and month. -/
def isoSlice10 (days : ℤ) : Str :=
  match civilFromDays days with
  | (y, m, d) =>
      if 0 ≤ y && y ≤ 9999 then
        padNat 4 y.toNat ++ '-' :: padNat 2 m.toNat ++ '-' :: padNat 2 d.toNat
      else if 9999 < y then
        '+' :: padNat 6 y.toNat ++ '-' :: padNat 2 m.toNat
      else
        '-' :: padNat 6 y.natAbs ++ '-' :: padNat 2 m.toNat

/-- parseCalendarDay of the source: search the raw token for
`(\d{1,2})\/(\d{1,2})`, take the second capture as the day of month,
and resolve it against the inferred month index and year via Date.UTC.
A falsy (absent or empty) token yields none. -/
def parseCalendarDay (day : Option Str) (monthIndex : ℕ) (year : ℕ) : Option Str :=
  match day with
  | none => none
  | some s =>
      if s.isEmpty then none
      else
        match searchPos dayPairHere s with
        | some (_, g2) =>
            some (isoSlice10 (jsDateUTC (year : ℤ) (monthIndex : ℤ) (natOfDigits g2 : ℤ)))
        | none => none
where
  dayPairHere (l : Str) : Option (Str × Str) :=
    let r := digitCount l
    if (r = 1 || r = 2) && decide ((l.drop r).head? = some '/')
        && decide (∃ c, (l.drop (r + 1)).head? = some c ∧ isDigitC c) then
      some (l.take r, (l.drop (r + 1)).take (min (digitCount (l.drop (r + 1))) 2))
    else none

/-- buildDisplayRange of the source: the first and last calendar day of
the bid month, in ISO form. -/
def buildDisplayRange (monthIndex : ℕ) (year : ℕ) : Str × Str :=
  let lastDay := (civilFromDays (jsDateUTC (year : ℤ) ((monthIndex : ℤ) + 1) 0)).2.2
  (isoSlice10 (jsDateUTC (year : ℤ) (monthIndex : ℤ) 1),
   isoSlice10 (jsDateUTC (year : ℤ) (monthIndex : ℤ) lastDay))

/-- FlightLeg of the source: positionally parsed optional fields next
to the raw line. -/
structure FlightLeg where
  raw : Str
  day : Option Str := none
  date : Option Str := none
  equipment : Option Str := none
  flightNumber : Option Str := none
  departureStation : Option Str := none
  departureTime : Option Str := none
  meal : Option Str := none
  arrivalStation : Option Str := none
  arrivalTime : Option Str := none
  blockTime : Option Str := none
  remarks : Option Str := none
deriving DecidableEq

/-- test of `^[A-Z]$`: a token that is exactly one uppercase letter. -/
def isMealTok : Str → Bool
  | [c] => isUpperC c
  | _ => false

/-- test of `^\d+(?:\.\d+)?` on a token: it starts with a digit. -/
def blockStartTok : Str → Bool
  | c :: _ => isDigitC c
  | [] => false

/-- The token-consumption body of parseFlightLeg over the token list of
the line: consume six positional slots, a single-uppercase-letter meal
lookahead, arrival station and time, a leading-decimal block time, and
join the leftovers into remarks. Each consumption advances the index
only when a token remains, so a short line simply leaves later fields
absent. -/
def parseFlightLegOfTokens (line : Str) (ts : List Str) : FlightLeg :=
  let n := ts.length
  let i6 := min n 6
  let meal :=
    match ts.get? i6 with
    | some t => if isMealTok t then some t else none
    | none => none
  let i7 := if meal.isSome then i6 + 1 else i6
  let i9 := min n (i7 + 2)
  let block :=
    match ts.get? i9 with
    | some t => if blockStartTok t then some t else none
    | none => none
  let i10 := if block.isSome then i9 + 1 else i9
  { raw := line
    day := ts.get? 0
    date := ts.get? 1
    equipment := ts.get? 2
    flightNumber := ts.get? 3
    departureStation := ts.get? 4
    departureTime := ts.get? 5
    meal := meal
    arrivalStation := ts.get? i7
    arrivalTime := ts.get? (i7 + 1)
    blockTime := block
    remarks := if i10 < n then some (List.intercalate [' '] (ts.drop i10)) else none }

/-- parseFlightLeg of the source: whitespace-tokenise (empty tokens
filtered) and consume positionally. -/
def parseFlightLeg (line : Str) : FlightLeg :=
  parseFlightLegOfTokens line (nonWsRuns line)

/-- SequenceDutyDay of the source. -/
structure SequenceDutyDay where
  rawLines : List Str := []
  reportLine : Option Str := none
  reportTime : Option Str := none
  calendarDay : Option Str := none
  releaseLine : Option Str := none
  releaseTime : Option Str := none
  hotelLayover : Option Str := none
  summary : Option Str := none
  legs : List FlightLeg := []
deriving DecidableEq

/-- JavaScript truthiness of an optional string: present and non-empty. -/
def otruthy : Option Str → Bool
  | some s => !s.isEmpty
  | none => false

/-- State of the duty-day grouper: emitted days, the open day, and the
established day-number of the open day. -/
structure DutyState where
  duties : List SequenceDutyDay := []
  current : Option SequenceDutyDay := none
  currentDayNumber : Option Str := none
deriving DecidableEq

def attachReport (d : SequenceDutyDay) (t : Str) : SequenceDutyDay :=
  { d with reportLine := some t, reportTime := reportTimeOf t, rawLines := d.rawLines ++ [t] }

def attachRelease (d : SequenceDutyDay) (t : Str) : SequenceDutyDay :=
  { d with releaseLine := some t, releaseTime := releaseTimeOf t, rawLines := d.rawLines ++ [t] }

def attachLeg (d : SequenceDutyDay) (t : Str) : SequenceDutyDay :=
  let leg := parseFlightLeg t
  { d with
    legs := d.legs ++ [leg]
    calendarDay :=
      if !otruthy d.calendarDay && otruthy leg.date then leg.date else d.calendarDay
    rawLines := d.rawLines ++ [t] }

def attachHotel (d : SequenceDutyDay) (t : Str) : SequenceDutyDay :=
  { d with hotelLayover := some t, rawLines := d.rawLines ++ [t] }

def attachSummary (d : SequenceDutyDay) (t : Str) : SequenceDutyDay :=
  { d with
    summary :=
      some (if otruthy d.summary then d.summary.getD [] ++ ' ' :: '|' :: ' ' :: t else t) }

/-- One step of parseDutyDays' loop body on a raw input line. -/
def dutyStep (st : DutyState) (line : Str) : DutyState :=
  let t := trim line
  if t.isEmpty then st
  else if isRptStart t then
    match st.current with
    | none =>
        { duties := st.duties, current := some (attachReport {} t), currentDayNumber := none }
    | some d =>
        if otruthy d.reportLine then
          { duties := st.duties ++ [d]
            current := some (attachReport {} t)
            currentDayNumber := none }
        else
          { duties := st.duties
            current := some (attachReport d t)
            currentDayNumber := st.currentDayNumber }
  else if isLegLine t then
    let legDay := leadingDigits t
    let flush :=
      match st.current, st.currentDayNumber with
      | some _, some n => !n.isEmpty && decide (legDay ≠ n)
      | _, _ => false
    let duties := match st.current with
      | some d => if flush then st.duties ++ [d] else st.duties
      | none => st.duties
    let cur := match st.current with
      | some d => if flush then ({} : SequenceDutyDay) else d
      | none => {}
    let dn0 := match st.current with
      | some _ => if flush then none else st.currentDayNumber
      | none => none
    let dn1 := if otruthy dn0 then dn0 else some legDay
    { duties := duties, current := some (attachLeg cur t), currentDayNumber := dn1 }
  else if isRlsStart t then
    match st.current with
    | none =>
        { duties := st.duties, current := some (attachRelease {} t), currentDayNumber := none }
    | some d =>
        { duties := st.duties
          current := some (attachRelease d t)
          currentDayNumber := st.currentDayNumber }
  else if isHotelLine t then
    match st.current with
    | none =>
        { duties := st.duties, current := some (attachHotel {} t), currentDayNumber := none }
    | some d =>
        { duties := st.duties
          current := some (attachHotel d t)
          currentDayNumber := st.currentDayNumber }
  else
    match st.current with
    | some d => { st with current := some (attachSummary d t) }
    | none => st

/-- parseDutyDays of the source: fold the grouper over the lines and
flush the still-open day at the end of input. -/
def parseDutyDays (lines : List Str) : List SequenceDutyDay :=
  let st := lines.foldl dutyStep {}
  st.duties ++ (match st.current with | some d => [d] | none => [])

/-- One step of splitSequences' loop: blocks emitted so far and the
open buffer. -/
def seqStep (acc : List (List Str) × List Str) (line : Str) : List (List Str) × List Str :=
  let blocks := acc.1
  let cur := acc.2
  if isSeqStart line then
    (blocks ++ (if cur.isEmpty then [] else [cur]), [line])
  else if !cur.isEmpty then
    if hasTTL line then (blocks ++ [cur ++ [line]], [])
    else (blocks, cur ++ [line])
  else acc

/-- Remove one trailing carriage return: together with splitting on
newline characters this is `split(/\r?\n/)`. -/
def dropTrailingCR (l : Str) : Str :=
  match l.getLast? with
  | some '\r' => l.dropLast
  | _ => l

/-- The line list splitSequences starts from: split on line breaks,
trim, drop blank lines. -/
def jsLines (text : Str) : List Str :=
  (((text.splitOn '\n').map dropTrailingCR).map trim).filter (fun l => !l.isEmpty)

/-- splitSequences of the source. -/
def splitSequences (text : Str) : List (List Str) :=
  let res := (jsLines text).foldl seqStep ([], [])
  res.1 ++ (if res.2.isEmpty then [] else [res.2])

/-- Crew-position counts keyed by the five codes the header pattern
recognises (a JavaScript object with at most these five keys). -/
structure Positions where
  ap : Option ℕ := none
  ca : Option ℕ := none
  fo : Option ℕ := none
  rl : Option ℕ := none
  rs : Option ℕ := none
deriving DecidableEq

def setPos (p : Positions) : PosCode → ℕ → Positions
  | PosCode.AP, n => { p with ap := some n }
  | PosCode.CA, n => { p with ca := some n }
  | PosCode.FO, n => { p with fo := some n }
  | PosCode.RL, n => { p with rl := some n }
  | PosCode.RS, n => { p with rs := some n }

def getPos (p : Positions) : PosCode → Option ℕ
  | PosCode.AP => p.ap
  | PosCode.CA => p.ca
  | PosCode.FO => p.fo
  | PosCode.RL => p.rl
  | PosCode.RS => p.rs

def posIsEmpty (p : Positions) : Bool :=
  p.ap.isNone && p.ca.isNone && p.fo.isNone && p.rl.isNone && p.rs.isNone

structure HeaderInfo where
  sequenceNumber : Str
  instancesInMonth : Option ℕ := none
  positions : Option Positions := none
deriving DecidableEq

/-- The header loop from token index 2 on: the first purely numeric
token fixes instancesInMonth; every position-pattern token writes its
count into the mapping (a repeat overwrites). -/
def headerScan : List Str → Option ℕ → Positions → Option ℕ × Positions
  | [], inst, pos => (inst, pos)
  | t :: ts, inst, pos =>
      if isPureNumeric t && inst.isNone then headerScan ts (some (natOfDigits t)) pos
      else
        match posMatch t with
        | some cn => headerScan ts inst (setPos pos cn.1 cn.2)
        | none => headerScan ts inst pos

/-- parseSequenceHeader of the source. -/
def parseSequenceHeader (headerLine : Str) : HeaderInfo :=
  let tokens := jsSplitWs headerLine
  let fallback := (tokens.headD []).filter isDigitC
  let seqNum :=
    match tokens.get? 1 with
    | some t => if t.isEmpty then fallback else t
    | none => fallback
  let ip := headerScan (tokens.drop 2) none {}
  { sequenceNumber := seqNum
    instancesInMonth := ip.1
    positions := if posIsEmpty ip.2 then none else some ip.2 }

structure SeqTotals where
  credit : Option ℚ := none
  dutyHours : Option ℚ := none
  blockHours : Option ℚ := none
deriving DecidableEq

/-- parseTotals of the source: the three keyed numbers, none when all
three markers are missing. -/
def parseTotals (line : Str) : Option SeqTotals :=
  let c := searchKeyNum ['T', 'T', 'L'] false line
  let d := searchKeyNum ['D', 'U', 'T', 'Y'] true line
  let b := searchKeyNum ['B', 'L', 'K'] true line
  if c.isNone && d.isNone && b.isNone then none
  else some { credit := c, dutyHours := d, blockHours := b }

structure SequenceRecord where
  sequenceNumber : Str
  instancesInMonth : Option ℕ := none
  positions : Option Positions := none
  totals : Option SeqTotals := none
  dutyDays : List SequenceDutyDay := []
  rawLines : List Str := []
deriving DecidableEq

/-- parseSequence of the source. The source locates the totals line
with find and slices up to indexOf of that line; since find returns the
first line satisfying the test, that pair is the first satisfying
index, here findIdx?. A block is never empty (splitSequences emits
none), so the empty case is unreachable filler. -/
def parseSequence (block : List Str) : SequenceRecord :=
  match block with
  | [] => { sequenceNumber := [] }
  | header :: rest =>
      let hi := parseSequenceHeader header
      match rest.findIdx? hasTTL with
      | some i =>
          { sequenceNumber := hi.sequenceNumber
            instancesInMonth := hi.instancesInMonth
            positions := hi.positions
            totals := (rest.get? i).bind parseTotals
            dutyDays := parseDutyDays (rest.take i)
            rawLines := block }
      | none =>
          { sequenceNumber := hi.sequenceNumber
            instancesInMonth := hi.instancesInMonth
            positions := hi.positions
            totals := none
            dutyDays := parseDutyDays rest
            rawLines := block }

/-- CRLF to LF, as the source's replace(/\r\n/g, ...) does. -/
def normNewlines : Str → Str
  | '\r' :: '\n' :: rest => '\n' :: normNewlines rest
  | c :: rest => c :: normNewlines rest
  | [] => []

/-- splitIntoPages of the source. Splitting on each form feed and then
dropping blank trimmed pieces equals splitting on form-feed runs and
dropping blank trimmed pieces, which is what split(/\f+/) plus the
trim/filter produces. -/
def splitIntoPages (rawText : Str) : List Str :=
  ((((normNewlines rawText).splitOn '\x0c').map trim).filter (fun p => !p.isEmpty))

/-- Strip of a case-insensitive `.pdf` ending. -/
def stripPdfExt (name : Str) : Str :=
  if 4 ≤ name.length && startsCI ['.', 'p', 'd', 'f'] (name.drop (name.length - 4)) then
    name.take (name.length - 4)
  else name

/-- Match of `(\w{3})_(\d{3})` at the current position. -/
def baseFleetAt (l : Str) : Option (Str × Str) :=
  match l with
  | a :: b :: c :: '_' :: d :: e :: f :: _ =>
      if isWordC a && isWordC b && isWordC c && isDigitC d && isDigitC e && isDigitC f then
        some ([a, b, c], [d, e, f])
      else none
  | _ => none

/-- extractBaseFleetFromFile of the source. -/
def extractBaseFleetFromFile (fileName : Str) : Str × Str :=
  match searchPos baseFleetAt (stripPdfExt fileName) with
  | some bf => (bf.1.map upC, bf.2)
  | none => (UNKNOWN, UNKNOWN)

/-- Character class `[0-9\/\-–]` of the FDP CALENDAR capture. -/
def classFdpC (c : Char) : Bool :=
  isDigitC c || c = '/' || c = '-' || c = '–'

/-- Character class of the split applied to the captured token: an
escaped slash, an unescaped hyphen, an en dash. The unescaped hyphen
between the two other atoms makes a RANGE from U+002F to U+2013, so
this class covers every code point in between (digits and letters
included) and not the plain hyphen. -/
def splitSepC (c : Char) : Bool :=
  0x2F ≤ c.toNat && c.toNat ≤ 0x2013

/-- Match of `FDP\s+CALENDAR\s+([0-9\/\-–]+)` (case-insensitive) at the
current position, returning the capture. -/
def fdpAt (l : Str) : Option Str :=
  match l with
  | a :: b :: c :: tl =>
      if eqCI a 'F' && eqCI b 'D' && eqCI c 'P' then
        match chompRun isWsC tl with
        | some tl2 =>
            if startsCI ['C', 'A', 'L', 'E', 'N', 'D', 'A', 'R'] tl2 then
              match chompRun isWsC (tl2.drop 8) with
              | some tl3 =>
                  let cap := tl3.takeWhile classFdpC
                  if cap.isEmpty then none else some cap
              | none => none
            else none
        | none => none
      else none
  | _ => none

/-- The first pattern of extractMonthYear on one page: an FDP CALENDAR
capture whose first split segment's first two characters give a Number
that, less one, indexes MONTHS, paired with the first four-digit run of
the page. A fractional in-range index cannot arise: the split segment
consists only of plain hyphens, so its Number is 0 or NaN. -/
def fdpMonthYear (page : Str) : Option (Str × ℕ) :=
  match searchPos fdpAt page with
  | some cap =>
      let monthPart := cap.takeWhile (fun c => !splitSepC c)
      let monthNumber := monthPart.take 2
      match jsNumberQ monthNumber with
      | some q =>
          if q.den = 1 && 1 ≤ q.num && q.num ≤ 12 then
            match fourDigitSearch page, MONTHS.get? (q.num - 1).toNat with
            | some y, some mon => some (mon, y)
            | _, _ => none
          else none
      | none => none
  | none => none

/-- Match of `(JANUARY|…|DECEMBER)\s+([0-9]{4})` (case-insensitive) at
the current position, the month reduced to its first three letters. -/
def longMonthAt (l : Str) : Option (Str × ℕ) :=
  match tryNames FULLMONTHS l with
  | some nr =>
      (chompRun isWsC nr.2).bind (fun r => (fourDigitsHere r).map (fun y => (nr.1.take 3, y)))
  | none => none

/-- Match of `([0-9]{2})(JAN|…|DEC)([0-9]{4})` (case-insensitive) at
the current position. -/
def compactAt (l : Str) : Option (Str × ℕ) :=
  match l with
  | a :: b :: tl =>
      if isDigitC a && isDigitC b then
        match tryNames MONTHS tl with
        | some nr => (fourDigitsHere nr.2).map (fun y => (nr.1, y))
        | none => none
      else none
  | _ => none

/-- Match of `(JAN|…|DEC)\s+([0-9]{4})` (case-insensitive) at the
current position. -/
def shortMonthAt (l : Str) : Option (Str × ℕ) :=
  match tryNames MONTHS l with
  | some nr =>
      (chompRun isWsC nr.2).bind (fun r => (fourDigitsHere r).map (fun y => (nr.1, y)))
  | none => none

/-- Match of `(JAN|…|DEC)([0-9]{4})` (case-insensitive) at the current
position: the file-name fallback. -/
def fileMonthAt (l : Str) : Option (Str × ℕ) :=
  match tryNames MONTHS l with
  | some nr => (fourDigitsHere nr.2).map (fun y => (nr.1, y))
  | none => none

/-- The four candidate patterns tried on one page, in the source's
order inside the page loop. -/
def pageMonthYear (page : Str) : Option (Str × ℕ) :=
  match fdpMonthYear page with
  | some r => some r
  | none =>
      match searchPos longMonthAt page with
      | some r => some r
      | none =>
          match searchPos compactAt page with
          | some r => some r
          | none => searchPos shortMonthAt page

/-- extractMonthYear of the source: the page loop (each page tries the
four patterns in order before the next page is considered), then the
file-name fallback, then the UNKNOWN sentinel with the current year. -/
def extractMonthYear (pages : List Str) (fileName : Str) (nowYear : ℕ) : Str × ℕ :=
  match pagesLoop pages with
  | some r => r
  | none =>
      match searchPos fileMonthAt fileName with
      | some r => r
      | none => (UNKNOWN, nowYear)
where
  pagesLoop : List Str → Option (Str × ℕ)
    | [] => none
    | p :: ps =>
        match pageMonthYear p with
        | some r => some r
        | none => pagesLoop ps

/-- The layover object of the final output. -/
structure Layover where
  station : Option Str
  hotel_name : Option Str
  hotel_phone : Option Str
  transport_name : Option Str
  transport_phone : Option Str
  ground_rest : Option Str
deriving DecidableEq

/-- Match of `(\d{1,2}\.\d{2})` at the current position: one or two
digits (greedy, so a longer digit run fails here and the search moves
on), a dot, then two digits. -/
def decSearchAt (l : Str) : Option Str :=
  let r := digitCount l
  if (r = 1 || r = 2) && decide ((l.drop r).head? = some '.')
      && 2 ≤ digitCount (l.drop (r + 1)) then
    some (l.take r ++ '.' :: (l.drop (r + 1)).take 2)
  else none

/-- parseLayover of the source: falsy input gives no layover object;
otherwise the first token (uppercased) is the station, the rest joined
is the hotel name, the first short decimal becomes ground rest, and the
phone and transport fields are always absent. -/
def parseLayover (raw : Option Str) : Option Layover :=
  match raw with
  | none => none
  | some s =>
      if s.isEmpty then none
      else
        let tokens := nonWsRuns s
        let remaining := List.intercalate [' '] tokens.tail
        some
          { station := tokens.head?.map (·.map upC)
            hotel_name := if remaining.isEmpty then none else some remaining
            hotel_phone := none
            transport_name := none
            transport_phone := none
            ground_rest := hoursToClockStr (searchPos decSearchAt s) }

structure UploadedLeg where
  leg_index : ℕ
  equip_code : Option Str
  flight_number : Option Str
  dep_station : Option Str
  arr_station : Option Str
  dep_local : Option Str
  arr_local : Option Str
  block_time : Option Str
  ground_time : Option Str
  meal : Option Str
deriving DecidableEq

structure UploadedDuty where
  duty_index : ℕ
  report_local : Option Str
  release_local : Option Str
  legs : List UploadedLeg
  layover : Option Layover
deriving DecidableEq

structure UploadedCalendar where
  start_dates : List Str
  display_range_start : Str
  display_range_end : Str
deriving DecidableEq

structure UploadedTotals where
  block_time : Option Str
  credit_time : Option Str
  tafb : Option Str
deriving DecidableEq

structure UploadedSequence where
  sequence_number : ℚ
  position : Str
  length_days : ℕ
  spanish_operation : Bool
  notes : Option Str
  calendar : UploadedCalendar
  totals : UploadedTotals
  duties : List UploadedDuty
deriving DecidableEq

/-- Insertion-ordered set insert (a JavaScript Set accumulated in
iteration order). -/
def dedupAppend (acc : List Str) (x : Str) : List Str :=
  if acc.contains x then acc else acc ++ [x]

/-- The sorted, space-joined position codes (Object.keys().sort()). -/
def positionJoin (p : Positions) : Str :=
  List.intercalate [' ']
    ((if p.ap.isSome then [['A', 'P']] else []) ++
     (if p.ca.isSome then [['C', 'A']] else []) ++
     (if p.fo.isSome then [['F', 'O']] else []) ++
     (if p.rl.isSome then [['R', 'L']] else []) ++
     (if p.rs.isSome then [['R', 'S']] else []))

/-- sequence_number of the final output: Number of the raw sequence
number, else Number of its digits only, else 0 (each step skipped when
falsy, that is NaN or 0). -/
def sequenceNumberVal (s : Str) : ℚ :=
  let second :=
    match jsNumberQ (s.filter isDigitC) with
    | some q2 => if q2 ≠ 0 then q2 else 0
    | none => 0
  match jsNumberQ s with
  | some q => if q ≠ 0 then q else second
  | none => second

def mapLeg (li : ℕ) (leg : FlightLeg) : UploadedLeg :=
  { leg_index := li + 1
    equip_code := leg.equipment
    flight_number := leg.flightNumber
    dep_station := leg.departureStation
    arr_station := leg.arrivalStation
    dep_local := parseClock leg.departureTime
    arr_local := parseClock leg.arrivalTime
    block_time := hoursToClockStr leg.blockTime
    ground_time := none
    meal := leg.meal }

def mapDuty (idx : ℕ) (duty : SequenceDutyDay) : UploadedDuty :=
  { duty_index := idx + 1
    report_local := parseClock duty.reportTime
    release_local := parseClock duty.releaseTime
    legs := duty.legs.mapIdx mapLeg
    layover := parseLayover duty.hotelLayover }

/-- toUploadedSequence of the source. -/
def toUploadedSequence (record : SequenceRecord) (monthIndex : ℕ) (year : ℕ)
    (displayRange : Str × Str) : UploadedSequence :=
  let calendarDates :=
    record.dutyDays.foldl
      (fun acc d =>
        match parseCalendarDay d.calendarDay monthIndex year with
        | some iso => dedupAppend acc iso
        | none => acc)
      []
  let notesParts :=
    record.dutyDays.filterMap
      (fun d => match d.summary with
        | some s => if s.isEmpty then none else some s
        | none => none)
  let joined := List.intercalate [' ', '|', ' '] notesParts
  { sequence_number := sequenceNumberVal record.sequenceNumber
    position :=
      match record.positions with
      | some p => positionJoin p
      | none => ['U', 'n', 'k', 'n', 'o', 'w', 'n']
    length_days := record.dutyDays.length
    spanish_operation := false
    notes := if joined.isEmpty then none else some joined
    calendar :=
      { start_dates := calendarDates
        display_range_start := displayRange.1
        display_range_end := displayRange.2 }
    totals :=
      { block_time := hoursToClock (record.totals.bind (·.blockHours))
        credit_time := hoursToClock (record.totals.bind (·.credit))
        tafb := hoursToClock (record.totals.bind (·.dutyHours)) }
    duties := record.dutyDays.mapIdx mapDuty }

structure PacketMetadata where
  base : Str
  fleet : Str
  month : Str
  year : ℕ
  bid_period_start : Str
  bid_period_end : Str
  source_document : Str
deriving DecidableEq

structure UploadedBidPacket where
  metadata : PacketMetadata
  sequences : List UploadedSequence
deriving DecidableEq

/-- indexOf on MONTHS: first index, or -1. -/
def monthsIndexOf (m : Str) : ℤ :=
  match MONTHS.findIdx? (fun x => x = m) with
  | some i => (i : ℤ)
  | none => -1

/-- parseBidPdf of the source downstream of the one external
text-extraction call: everything from the raw extracted text and the
file name to the final packet. The wall-clock current year of the final
month/year fallback is the explicit `nowYear` argument. -/
def parseBidPdfText (rawText : Str) (fileName : Str) (nowYear : ℕ) : UploadedBidPacket :=
  let pages := splitIntoPages rawText
  let bf := extractBaseFleetFromFile fileName
  let my := extractMonthYear pages fileName nowYear
  let monthIndex := (max 0 (monthsIndexOf my.1)).toNat
  let displayRange := buildDisplayRange monthIndex my.2
  let effPages := if pages.isEmpty then [rawText] else pages
  let records := (effPages.map (fun p => (splitSequences p).map parseSequence)).flatten
  { metadata :=
      { base := bf.1
        fleet := bf.2
        month := my.1
        year := my.2
        bid_period_start := displayRange.1
        bid_period_end := displayRange.2
        source_document := fileName }
    sequences := records.map (fun r => toUploadedSequence r monthIndex my.2 displayRange) }

/-- Bool test of the spec's output pattern for clock strings, two
digits, a colon, two digits. -/
def matchesClock : Str → Bool
  | [a, b, ':', c, d] => isDigitC a && isDigitC b && isDigitC c && isDigitC d
  | _ => false

/-- Bool test: exactly two characters, both digits. -/
def digits2 (s : Str) : Bool :=
  decide (s.length = 2) && s.all isDigitC

/-- Lookup in an optional position mapping (an absent mapping has no
entries). -/
def posLookup : Option Positions → PosCode → Option ℕ
  | none, _ => none
  | some p, c => getPos p c

/-- The value of the last header token carrying the given position
code: what accumulation-with-overwrite keeps. -/
def lastPosVal (code : PosCode) (ts : List Str) : Option ℕ :=
  (((ts.filterMap posMatch).filter (fun cn => cn.1 = code)).getLast?).map (·.2)

def exLegLine : Str := "1 12/25 737 1234 BOS 0700 E LGA 0815 1.15".toList

def exShortLeg : Str := "1 2/3 4".toList

def exRpt0600 : Str := "RPT 0600".toList

def exRpt1400 : Str := "RPT 1400".toList

def exRls0900 : Str := "RLS 0900".toList

def exNote : Str := "NOTE TEXT".toList

def exHotelLine : Str := "LGA HOTEL MARRIOTT 14.30".toList

def exHeader : Str := "SEQ 1234 2 CA2 FO1".toList

def exTotalsLine : Str := "TTL 12.30 DUTY 9.15 BLK 8.00".toList

def exPage6 : Str :=
  ("SEQ 1234 2 CA2 FO1\nRPT 0600\n" ++
   "1 12/25 737 1234 BOS 0700 E LGA 0815 1.15\nRLS 0900\n" ++
   "TTL 12.30 DUTY 9.15 BLK 8.00").toList

def exFdpPage : Str := "FDP CALENDAR 12/01-12/31 2025".toList

def exFdpCapture : Str := "12/01-12/31".toList

def exBidPdf : Str := "bid.pdf".toList

/-- The duty day built from the single line RPT 0600 (used to
instantiate the flush rule concretely). -/
def exDayAfterRpt : SequenceDutyDay := attachReport {} exRpt0600

/-- A raw text with one sequence block and no month/year cue anywhere. -/
def exRaw9 : Str :=
  ("SEQ 1 2 CA1\n1 5/7 737 100 BOS 0700 LGA 0800\nTTL 5.00").toList

def exRosterPdf : Str := "roster.pdf".toList

/-- Invariant of reachable grouper states: a recorded report line and
an established day number are never the empty string (the source sets
them only from non-empty trimmed lines and non-empty digit runs, and
its truthiness tests rely on that). -/
def GoodState (st : DutyState) : Prop :=
  (∀ d s, st.current = some d → d.reportLine = some s → s ≠ []) ∧
  (∀ n, st.currentDayNumber = some n → n ≠ [])

end PbsMvp

namespace PbsMvp

/- ===================== Theorems ===================== -/

theorem searchPos_imp {α : Type} (step : Str → Option α) (P : α → Prop)
    (hstep : ∀ l v, step l = some v → P v) :
    ∀ l v, searchPos step l = some v → P v := by
  intro l
  induction l with
  | nil =>
      intro v h
      exact hstep [] v (by simpa [searchPos] using h)
  | cons c rest ih =>
      intro v h
      rw [searchPos] at h
      rcases hs : step (c :: rest) with _ | w
      · rw [hs] at h
        exact ih v h
      · rw [hs] at h
        cases h
        exact hstep _ _ hs

theorem mem_takeWhile_imp {p : Char → Bool} {l : Str} :
    ∀ c ∈ l.takeWhile p, p c = true := by
  induction l with
  | nil => simp [List.takeWhile]
  | cons a as ih =>
      intro c hc
      rw [List.takeWhile] at hc
      rcases hp : p a with _ | _
      · rw [hp] at hc; simp at hc
      · rw [hp] at hc
        rcases List.mem_cons.mp hc with h | h
        · subst h; exact hp
        · exact ih c h

theorem dropWhile_eq_self {p : Char → Bool} {l : Str}
    (h : ∀ c, l.head? = some c → p c = false) : l.dropWhile p = l := by
  cases l with
  | nil => rfl
  | cons a as =>
      rw [List.dropWhile]
      have := h a (by rfl)
      simp [this]

theorem head?_dropWhile {p : Char → Bool} {l : Str} :
    ∀ c, (l.dropWhile p).head? = some c → p c = false := by
  induction l with
  | nil => simp [List.dropWhile]
  | cons a as ih =>
      intro c hc
      rw [List.dropWhile] at hc
      rcases hp : p a with _ | _
      · rw [hp] at hc
        simp only [Bool.false_eq_true, if_false] at hc
        cases hc
        exact hp
      · rw [hp] at hc
        simp only [if_true] at hc
        exact ih c hc

theorem getLast?_dropWhile {p : Char → Bool} {l : Str} :
    ∀ c, (l.dropWhile p).getLast? = some c → l.getLast? = some c := by
  induction l with
  | nil => simp [List.dropWhile]
  | cons a as ih =>
      intro c hc
      rw [List.dropWhile] at hc
      rcases hp : p a with _ | _
      · rw [hp] at hc
        simpa using hc
      · rw [hp] at hc
        simp only [if_true] at hc
        have hne : as ≠ [] := by
          intro he
          rw [he] at hc
          simp [List.dropWhile] at hc
        rw [List.getLast?_cons, ih c hc]
        cases as with
        | nil => exact absurd rfl hne
        | cons b bs => simp [List.getLast?_cons]

theorem trim_head {l : Str} : ∀ c, (trim l).head? = some c → isWsC c = false := by
  intro c hc
  unfold trim at hc
  rw [List.head?_reverse] at hc
  have h1 : ((l.dropWhile isWsC).reverse).getLast? = some c := getLast?_dropWhile c hc
  rw [List.getLast?_reverse] at h1
  exact head?_dropWhile c h1

theorem trim_last {l : Str} : ∀ c, (trim l).getLast? = some c → isWsC c = false := by
  intro c hc
  unfold trim at hc
  rw [List.getLast?_reverse] at hc
  exact head?_dropWhile c hc

theorem trim_eq_self {l : Str}
    (h1 : ∀ c, l.head? = some c → isWsC c = false)
    (h2 : ∀ c, l.getLast? = some c → isWsC c = false) : trim l = l := by
  unfold trim
  rw [dropWhile_eq_self h1]
  rw [dropWhile_eq_self (by intro c hc; rw [List.head?_reverse] at hc; exact h2 c hc)]
  exact List.reverse_reverse l

theorem trim_idem (l : Str) : trim (trim l) = trim l :=
  trim_eq_self (fun c hc => trim_head c hc) (fun c hc => trim_last c hc)

theorem parseFlightLegOfTokens_meal_only_if (line : Str) (ts : List Str) (t : Str)
    (h : (parseFlightLegOfTokens line ts).meal = some t) : isMealTok t = true := by
  have key : ∀ (o : Option Str),
      (match o with
       | some u => if isMealTok u then some u else none
       | none => none) = some t → isMealTok t = true := by
    intro o ho
    rcases o with _ | tok
    · simp at ho
    · simp only at ho
      by_cases hu : isMealTok tok = true
      · rw [if_pos hu] at ho
        cases ho
        exact hu
      · rw [if_neg hu] at ho
        cases ho
  exact key _ h

theorem parseFlightLegOfTokens_block_only_if (line : Str) (ts : List Str) (t : Str)
    (h : (parseFlightLegOfTokens line ts).blockTime = some t) : blockStartTok t = true := by
  have key : ∀ (o : Option Str),
      (match o with
       | some u => if blockStartTok u then some u else none
       | none => none) = some t → blockStartTok t = true := by
    intro o ho
    rcases o with _ | tok
    · simp at ho
    · simp only at ho
      by_cases hu : blockStartTok tok = true
      · rw [if_pos hu] at ho
        cases ho
        exact hu
      · rw [if_neg hu] at ho
        cases ho
  exact key _ h

theorem parseFlightLegOfTokens_short (line : Str) (ts : List Str)
    (hlen : ts.length < 4) :
    (parseFlightLegOfTokens line ts).day = ts.get? 0 ∧
    (parseFlightLegOfTokens line ts).date = ts.get? 1 ∧
    (parseFlightLegOfTokens line ts).equipment = ts.get? 2 ∧
    (parseFlightLegOfTokens line ts).flightNumber = none ∧
    (parseFlightLegOfTokens line ts).departureStation = none ∧
    (parseFlightLegOfTokens line ts).departureTime = none ∧
    (parseFlightLegOfTokens line ts).meal = none ∧
    (parseFlightLegOfTokens line ts).arrivalStation = none ∧
    (parseFlightLegOfTokens line ts).arrivalTime = none ∧
    (parseFlightLegOfTokens line ts).blockTime = none ∧
    (parseFlightLegOfTokens line ts).remarks = none := by
  rcases ts with _ | ⟨a, _ | ⟨b, _ | ⟨c, _ | ⟨d, rest⟩⟩⟩⟩
  · exact ⟨rfl, rfl, rfl, rfl, rfl, rfl, rfl, rfl, rfl, rfl, rfl⟩
  · exact ⟨rfl, rfl, rfl, rfl, rfl, rfl, rfl, rfl, rfl, rfl, rfl⟩
  · exact ⟨rfl, rfl, rfl, rfl, rfl, rfl, rfl, rfl, rfl, rfl, rfl⟩
  · exact ⟨rfl, rfl, rfl, rfl, rfl, rfl, rfl, rfl, rfl, rfl, rfl⟩
  · simp only [List.length_cons] at hlen
    omega

/-- Claim C5: parseFlightLeg consumes whitespace tokens left-to-right
into day, date, equipment, flightNumber, departureStation,
departureTime, takes the next token as meal only when it is exactly one
uppercase letter, then arrivalStation and arrivalTime, takes the next
token as blockTime only when it starts with a decimal number, and joins
leftovers into remarks; on the concrete example line it yields meal E
and blockTime 1.15 with no remarks, and a line of fewer than four
tokens yields a record with only the fields the token count allows,
never an error. -/
theorem C5_parseFlightLeg_positional :
    parseFlightLeg exLegLine =
      { raw := exLegLine
        day := some ['1']
        date := some ['1', '2', '/', '2', '5']
        equipment := some ['7', '3', '7']
        flightNumber := some ['1', '2', '3', '4']
        departureStation := some ['B', 'O', 'S']
        departureTime := some ['0', '7', '0', '0']
        meal := some ['E']
        arrivalStation := some ['L', 'G', 'A']
        arrivalTime := some ['0', '8', '1', '5']
        blockTime := some ['1', '.', '1', '5']
        remarks := none } ∧
    (∀ line t, (parseFlightLeg line).meal = some t → isMealTok t = true) ∧
    (∀ line t, (parseFlightLeg line).blockTime = some t → blockStartTok t = true) ∧
    (∀ line, (nonWsRuns line).length < 4 →
      (parseFlightLeg line).day = (nonWsRuns line).get? 0 ∧
      (parseFlightLeg line).date = (nonWsRuns line).get? 1 ∧
      (parseFlightLeg line).equipment = (nonWsRuns line).get? 2 ∧
      (parseFlightLeg line).flightNumber = none ∧
      (parseFlightLeg line).departureStation = none ∧
      (parseFlightLeg line).departureTime = none ∧
      (parseFlightLeg line).meal = none ∧
      (parseFlightLeg line).arrivalStation = none ∧
      (parseFlightLeg line).arrivalTime = none ∧
      (parseFlightLeg line).blockTime = none ∧
      (parseFlightLeg line).remarks = none) := by
  refine ⟨by decide, ?_, ?_, ?_⟩
  · intro line t h
    exact parseFlightLegOfTokens_meal_only_if line (nonWsRuns line) t h
  · intro line t h
    exact parseFlightLegOfTokens_block_only_if line (nonWsRuns line) t h
  · intro line hlen
    exact parseFlightLegOfTokens_short line (nonWsRuns line) hlen

theorem jsRound_eq_floor (q : ℚ) : jsRound q = ⌊q + 1 / 2⌋ := (Rat.floor_def).symm

theorem digits2_padZero : ∀ n : ℕ, n < 100 → digits2 (padZero 2 (natDigits n)) = true := by
  decide

theorem digits2_shape (s : Str) (h : digits2 s = true) :
    ∃ a b, s = [a, b] ∧ isDigitC a = true ∧ isDigitC b = true := by
  rcases s with _ | ⟨a, _ | ⟨b, _ | ⟨c, r⟩⟩⟩
  · simp [digits2] at h
  · simp [digits2] at h
  · refine ⟨a, b, rfl, ?_, ?_⟩ <;> simp [digits2] at h <;> tauto
  · exfalso
    simp [digits2] at h

theorem clock_shape (n : ℕ) (h : n < 6000) :
    matchesClock (padZero 2 (natDigits (n / 60)) ++ ':' :: padZero 2 (natDigits (n % 60))) = true := by
  have h1 : n / 60 < 100 := by omega
  have h2 : n % 60 < 100 := by
    have := Nat.mod_lt n (show 0 < 60 by norm_num)
    omega
  obtain ⟨a, b, hab, ha, hb⟩ := digits2_shape _ (digits2_padZero _ h1)
  obtain ⟨c, d, hcd, hc, hd⟩ := digits2_shape _ (digits2_padZero _ h2)
  rw [hab, hcd]
  show (isDigitC a && isDigitC b && isDigitC c && isDigitC d) = true
  rw [ha, hb, hc, hd]
  rfl

theorem fdiv_coe (m k : ℕ) : Int.fdiv (m : ℤ) (k : ℤ) = ((m / k : ℕ) : ℤ) := by
  cases m with
  | zero =>
      simp only [Nat.cast_zero, Nat.zero_div]
      with_unfolding_all rfl
  | succ m0 => rfl

theorem tmod_coe (m k : ℕ) : Int.tmod (m : ℤ) (k : ℤ) = ((m % k : ℕ) : ℤ) := by
  cases m with
  | zero =>
      simp only [Nat.cast_zero, Nat.zero_mod]
      with_unfolding_all rfl
  | succ m0 => rfl

theorem intStr_coe (k : ℕ) : intStr (k : ℤ) = natDigits k := by
  unfold intStr
  rw [if_neg (by omega)]
  have : ((k : ℤ)).toNat = k := by omega
  rw [this]

theorem hoursToClockQ_clock (q : ℚ) (h0 : 0 ≤ q) (h6 : jsRound (q * 60) < 6000) :
    matchesClock (hoursToClockQ q) = true := by
  have hge : 0 ≤ jsRound (q * 60) := by
    rw [jsRound_eq_floor]
    have hq : (0 : ℚ) ≤ q * 60 + 1 / 2 := by
      have : (0 : ℚ) ≤ q * 60 := by positivity
      linarith
    exact Int.le_floor.mpr (by simpa using hq)
  obtain ⟨n, hn⟩ : ∃ n : ℕ, jsRound (q * 60) = (n : ℤ) := ⟨(jsRound (q * 60)).toNat, by omega⟩
  have hn6 : n < 6000 := by omega
  have heq : hoursToClockQ q =
      padZero 2 (natDigits (n / 60)) ++ ':' :: padZero 2 (natDigits (n % 60)) := by
    simp only [hoursToClockQ]
    rw [hn, show (60 : ℤ) = ((60 : ℕ) : ℤ) by norm_num, fdiv_coe, tmod_coe,
      intStr_coe, intStr_coe]
  rw [heq]
  exact clock_shape n hn6

/-- Claim C7 counterexample: 100 is a decimal hour input at least 0,
yet hoursToClock renders it as 100:00, which does not match the
two-digit-hours clock pattern the claim asserts for every such input. -/
theorem C7_counterexample :
    (0 : ℚ) ≤ 100 ∧
    hoursToClock (some 100) = some ['1', '0', '0', ':', '0', '0'] ∧
    matchesClock ['1', '0', '0', ':', '0', '0'] = false := by
  refine ⟨by norm_num, by with_unfolding_all rfl, by decide⟩

/-- Claim C7 (amended): for decimal hour inputs h at least 0 whose
rounded minute total stays below 6000 (hour part below 100),
hoursToClock returns a string matching the two-digit HH:MM pattern,
computed by multiplying by 60, rounding to the nearest minute,
splitting into hours and minutes and zero-padding each to 2 digits
joined with a colon; hoursToClock of 1.5 is 01:30, of 0 is 00:00, and
an absent input yields none. For inputs of 100 hours or more the hour
part keeps all its digits, so the two-digit pattern fails. -/
theorem C7_hoursToClock_amended :
    (∀ q : ℚ, 0 ≤ q → jsRound (q * 60) < 6000 →
      ∃ s, hoursToClock (some q) = some s ∧ matchesClock s = true) ∧
    hoursToClock (some (3 / 2)) = some ['0', '1', ':', '3', '0'] ∧
    hoursToClock (some 0) = some ['0', '0', ':', '0', '0'] ∧
    hoursToClock none = none := by
  refine ⟨?_, by with_unfolding_all rfl, by with_unfolding_all rfl, rfl⟩
  intro q h0 h6
  exact ⟨hoursToClockQ q, rfl, hoursToClockQ_clock q h0 h6⟩

/-- Witness for C7: the input 1.5 satisfies both hypotheses and its
clock string matches the pattern. -/
theorem C7_witness :
    ∃ s, hoursToClock (some (3 / 2 : ℚ)) = some s ∧ matchesClock s = true :=
  C7_hoursToClock_amended.1 (3 / 2) (by norm_num) (by with_unfolding_all decide)

theorem startsWithStr_iff (p : Str) : ∀ l : Str, startsWithStr p l = true ↔ ∃ r, l = p ++ r := by
  induction p with
  | nil =>
      intro l
      simp [startsWithStr, containsBy.startsBy]
  | cons x ps ih =>
      intro l
      cases l with
      | nil =>
          simp [startsWithStr, containsBy.startsBy]
      | cons c cs =>
          simp only [startsWithStr, containsBy.startsBy, Bool.and_eq_true,
            decide_eq_true_eq, List.cons_append, List.cons.injEq]
          constructor
          · rintro ⟨hx, hs⟩
            obtain ⟨r, hr⟩ := (ih cs).mp hs
            exact ⟨r, hx.symm, hr⟩
          · rintro ⟨r, hx, hr⟩
            exact ⟨hx.symm, (ih cs).mpr ⟨r, hr⟩⟩

theorem isRptStart_shape {t : Str} (h : isRptStart t = true) :
    ∃ r, t = 'R' :: 'P' :: 'T' :: r := by
  unfold isRptStart at h
  rcases (Bool.and_eq_true _ _).mp h with ⟨h1, _⟩
  obtain ⟨r, hr⟩ := (startsWithStr_iff _ _).mp h1
  exact ⟨r, by simpa using hr⟩

theorem isRlsStart_shape {t : Str} (h : isRlsStart t = true) :
    ∃ r, t = 'R' :: 'L' :: 'S' :: r := by
  unfold isRlsStart at h
  rcases (Bool.and_eq_true _ _).mp h with ⟨h1, _⟩
  obtain ⟨r, hr⟩ := (startsWithStr_iff _ _).mp h1
  exact ⟨r, by simpa using hr⟩

theorem isSeqStart_shape {t : Str} (h : isSeqStart t = true) :
    ∃ r, t = 'S' :: 'E' :: 'Q' :: r := by
  unfold isSeqStart at h
  rcases (Bool.and_eq_true _ _).mp h with ⟨h1, _⟩
  obtain ⟨r, hr⟩ := (startsWithStr_iff _ _).mp h1
  exact ⟨r, by simpa using hr⟩

theorem isLegLine_head {t : Str} (h : isLegLine t = true) :
    ∃ c r, t = c :: r ∧ isDigitC c = true := by
  rcases t with _ | ⟨c, r⟩
  · simp [isLegLine, chompRun] at h
  · by_cases hc : isDigitC c = true
    · exact ⟨c, r, rfl, hc⟩
    · exfalso
      simp [isLegLine, chompRun, hc] at h

theorem isLegLine_leadingDigits {t : Str} (h : isLegLine t = true) :
    leadingDigits t ≠ [] := by
  obtain ⟨c, r, rfl, hc⟩ := isLegLine_head h
  simp [leadingDigits, List.takeWhile_cons, hc]

theorem isRptStart_not_leg {t : Str} (h : isRptStart t = true) : isLegLine t = false := by
  obtain ⟨r, rfl⟩ := isRptStart_shape h
  rfl

theorem isLegLine_not_rpt {t : Str} (h : isLegLine t = true) : isRptStart t = false := by
  obtain ⟨c, r, rfl, hc⟩ := isLegLine_head h
  by_contra hb
  rw [Bool.not_eq_false] at hb
  obtain ⟨r2, hr2⟩ := isRptStart_shape hb
  rw [List.cons.injEq] at hr2
  rw [hr2.1] at hc
  exact absurd hc (by decide)

theorem goodState_init : GoodState {} := by
  constructor
  · intro d s hd
    cases hd
  · intro n hn
    cases hn

theorem dutyStep_good (st : DutyState) (line : Str) (hg : GoodState st) :
    GoodState (dutyStep st line) := by
  obtain ⟨hrep, hdn⟩ := hg
  have hne : ¬((trim line).isEmpty = true) → trim line ≠ [] := by
    intro b hcon
    exact b (by rw [hcon]; rfl)
  unfold dutyStep
  by_cases h1 : (trim line).isEmpty = true
  · rw [if_pos h1]
    exact ⟨hrep, hdn⟩
  rw [if_neg h1]
  by_cases h2 : isRptStart (trim line) = true
  · rw [if_pos h2]
    have hrl : ∀ X : SequenceDutyDay, ∀ d s,
        some (attachReport X (trim line)) = some d → d.reportLine = some s → s ≠ [] := by
      intro X d s hd hs
      injection hd with hd
      subst hd
      have hx : (attachReport X (trim line)).reportLine = some (trim line) := rfl
      rw [hx] at hs
      injection hs with hs
      rw [← hs]
      exact hne h1
    cases hcur : st.current with
    | none => exact ⟨hrl {}, fun n hn => nomatch hn⟩
    | some d =>
        dsimp only
        by_cases h3 : otruthy d.reportLine = true
        · rw [if_pos h3]
          exact ⟨hrl {}, fun n hn => nomatch hn⟩
        · rw [if_neg h3]
          exact ⟨hrl d, hdn⟩
  rw [if_neg h2]
  by_cases h4 : isLegLine (trim line) = true
  · rw [if_pos h4]
    simp only []
    have hleg : leadingDigits (trim line) ≠ [] := isLegLine_leadingDigits h4
    have hattach : ∀ (X : SequenceDutyDay) (t : Str),
        (attachLeg X t).reportLine = X.reportLine := fun _ _ => rfl
    cases hcur : st.current with
    | none =>
        refine ⟨?_, ?_⟩
        · intro d s hd hs
          injection hd with hd
          subst hd
          rw [hattach] at hs
          cases hs
        · intro n hn
          simp only [otruthy] at hn
          injection hn with hn
          rw [← hn]
          exact hleg
    | some d =>
        dsimp only
        cases hdc : st.currentDayNumber with
        | none =>
            dsimp only
            refine ⟨?_, ?_⟩
            · intro d2 s hd hs
              injection hd with hd
              subst hd
              rw [hattach] at hs
              exact hrep d s hcur hs
            · intro n hn
              simp only [otruthy] at hn
              injection hn with hn
              rw [← hn]
              exact hleg
        | some m =>
            dsimp only
            by_cases h5 : (!m.isEmpty && decide (leadingDigits (trim line) ≠ m)) = true
            · simp only [h5, if_true]
              refine ⟨?_, ?_⟩
              · intro d2 s hd hs
                injection hd with hd
                subst hd
                rw [hattach] at hs
                cases hs
              · intro n hn
                simp only [otruthy] at hn
                injection hn with hn
                rw [← hn]
                exact hleg
            · simp only [if_neg h5]
              refine ⟨?_, ?_⟩
              · intro d2 s hd hs
                injection hd with hd
                subst hd
                rw [hattach] at hs
                exact hrep d s hcur hs
              · intro n hn
                simp only [otruthy] at hn
                by_cases hm : m.isEmpty = true
                · simp only [hm, Bool.not_true, Bool.false_eq_true, if_false,
                    Option.some.injEq] at hn
                  rw [← hn]
                  exact hleg
                · rw [Bool.not_eq_true] at hm
                  simp only [hm, Bool.not_false, if_true, Option.some.injEq] at hn
                  rw [← hn]
                  exact hdn m hdc
  rw [if_neg h4]
  by_cases h6 : isRlsStart (trim line) = true
  · rw [if_pos h6]
    have hattach : ∀ (X : SequenceDutyDay) (t : Str),
        (attachRelease X t).reportLine = X.reportLine := fun _ _ => rfl
    cases hcur : st.current with
    | none =>
        refine ⟨?_, fun n hn => nomatch hn⟩
        intro d s hd hs
        injection hd with hd
        subst hd
        rw [hattach] at hs
        cases hs
    | some d =>
        refine ⟨?_, hdn⟩
        intro d2 s hd hs
        injection hd with hd
        subst hd
        rw [hattach] at hs
        exact hrep d s hcur hs
  rw [if_neg h6]
  by_cases h7 : isHotelLine (trim line) = true
  · rw [if_pos h7]
    have hattach : ∀ (X : SequenceDutyDay) (t : Str),
        (attachHotel X t).reportLine = X.reportLine := fun _ _ => rfl
    cases hcur : st.current with
    | none =>
        refine ⟨?_, fun n hn => nomatch hn⟩
        intro d s hd hs
        injection hd with hd
        subst hd
        rw [hattach] at hs
        cases hs
    | some d =>
        refine ⟨?_, hdn⟩
        intro d2 s hd hs
        injection hd with hd
        subst hd
        rw [hattach] at hs
        exact hrep d s hcur hs
  rw [if_neg h7]
  cases hcur : st.current with
  | none => exact ⟨hrep, hdn⟩
  | some d =>
      refine ⟨?_, hdn⟩
      intro d2 s hd hs
      injection hd with hd
      subst hd
      have hattach : (attachSummary d (trim line)).reportLine = d.reportLine := rfl
      rw [hattach] at hs
      exact hrep d s hcur hs

theorem foldl_good (lines : List Str) : ∀ st, GoodState st → GoodState (lines.foldl dutyStep st) := by
  induction lines with
  | nil => intro st h; exact h
  | cons l ls ih =>
      intro st h
      exact ih _ (dutyStep_good st l h)

theorem append_singleton_ne (l : List SequenceDutyDay) (d : SequenceDutyDay) :
    l ++ [d] ≠ l := by
  intro h
  have := congrArg List.length h
  simp at this

theorem dutyStep_flush_iff (st : DutyState) (line : Str) (d : SequenceDutyDay)
    (hcur : st.current = some d) (hg : GoodState st) :
    ((dutyStep st line).duties ≠ st.duties ↔
      (isRptStart (trim line) = true ∧ d.reportLine ≠ none) ∨
      (isLegLine (trim line) = true ∧
        ∃ n, st.currentDayNumber = some n ∧ leadingDigits (trim line) ≠ n)) ∧
    ((dutyStep st line).duties = st.duties ∨ (dutyStep st line).duties = st.duties ++ [d]) := by
  obtain ⟨hrep, hdn⟩ := hg
  unfold dutyStep
  by_cases h1 : (trim line).isEmpty = true
  · rw [if_pos h1]
    have ht : trim line = [] := by
      cases htl : trim line with
      | nil => rfl
      | cons c cs => rw [htl] at h1; simp at h1
    rw [ht]
    refine ⟨⟨fun hcon => absurd rfl hcon, ?_⟩, Or.inl rfl⟩
    rintro (⟨hx, _⟩ | ⟨hx, _⟩)
    · exact absurd hx (by decide)
    · exact absurd hx (by decide)
  rw [if_neg h1]
  by_cases h2 : isRptStart (trim line) = true
  · rw [if_pos h2, hcur]
    dsimp only
    by_cases h3 : otruthy d.reportLine = true
    · rw [if_pos h3]
      refine ⟨⟨fun _ => ?_, fun _ => append_singleton_ne _ _⟩, Or.inr rfl⟩
      left
      refine ⟨h2, ?_⟩
      rcases hr : d.reportLine with _ | s
      · rw [hr] at h3; simp [otruthy] at h3
      · exact fun hc => nomatch hc
    · rw [if_neg h3]
      have hnone : d.reportLine = none := by
        rcases hr : d.reportLine with _ | s
        · rfl
        · exfalso
          have hs := hrep d s hcur hr
          apply h3
          rw [hr]
          cases s with
          | nil => exact absurd rfl hs
          | cons c cs => rfl
      refine ⟨⟨fun hcon => absurd rfl hcon, ?_⟩, Or.inl rfl⟩
      rintro (⟨_, hx⟩ | ⟨hx, _⟩)
      · exact absurd hnone hx
      · have hf := isRptStart_not_leg h2
        rw [hx] at hf
        cases hf
  rw [if_neg h2]
  by_cases h4 : isLegLine (trim line) = true
  · rw [if_pos h4]
    dsimp only
    rw [hcur]
    dsimp only
    cases hdc : st.currentDayNumber with
    | none =>
        dsimp only
        refine ⟨⟨fun hcon => absurd rfl hcon, ?_⟩, Or.inl rfl⟩
        rintro (⟨hx, _⟩ | ⟨_, n, hn, _⟩)
        · have hf := isLegLine_not_rpt h4
          rw [hx] at hf
          cases hf
        · cases hn
    | some m =>
        dsimp only
        have hm : m ≠ [] := hdn m hdc
        have hm2 : m.isEmpty = false := by
          cases m with
          | nil => exact absurd rfl hm
          | cons c cs => rfl
        by_cases h5 : (!m.isEmpty && decide (leadingDigits (trim line) ≠ m)) = true
        · simp only [h5, if_true]
          refine ⟨⟨fun _ => ?_, fun _ => append_singleton_ne _ _⟩, Or.inr trivial⟩
          right
          refine ⟨h4, m, rfl, ?_⟩
          rcases (Bool.and_eq_true _ _).mp h5 with ⟨_, hd5⟩
          exact of_decide_eq_true hd5
        · simp only [if_neg h5]
          refine ⟨⟨fun hcon => absurd rfl hcon, ?_⟩, Or.inl trivial⟩
          rintro (⟨hx, _⟩ | ⟨_, n, hn, hne2⟩)
          · have hf := isLegLine_not_rpt h4
            rw [hx] at hf
            cases hf
          · injection hn with hn
            subst hn
            exact absurd
              (by
                simp only [hm2, Bool.not_false, Bool.true_and, decide_eq_true_eq]
                exact hne2)
              h5
  rw [if_neg h4]
  have hrhs : ¬((isRptStart (trim line) = true ∧ d.reportLine ≠ none) ∨
      (isLegLine (trim line) = true ∧
        ∃ n, st.currentDayNumber = some n ∧ leadingDigits (trim line) ≠ n)) := by
    rintro (⟨hx, _⟩ | ⟨hx, _⟩)
    · exact h2 hx
    · exact h4 hx
  by_cases h6 : isRlsStart (trim line) = true
  · rw [if_pos h6, hcur]
    dsimp only
    exact ⟨⟨fun hcon => absurd rfl hcon, fun hr => absurd hr hrhs⟩, Or.inl rfl⟩
  rw [if_neg h6]
  by_cases h7 : isHotelLine (trim line) = true
  · rw [if_pos h7, hcur]
    dsimp only
    exact ⟨⟨fun hcon => absurd rfl hcon, fun hr => absurd hr hrhs⟩, Or.inl rfl⟩
  rw [if_neg h7, hcur]
  dsimp only
  exact ⟨⟨fun hcon => absurd rfl hcon, fun hr => absurd hr hrhs⟩, Or.inl rfl⟩

theorem dutyStep_none_duties (st : DutyState) (line : Str) (h : st.current = none) :
    (dutyStep st line).duties = st.duties := by
  unfold dutyStep
  simp only [h]
  repeat' split
  all_goals rfl

/-- Claim C1: while the duty-day grouper holds an open day, processing
one more line pushes that open day to the output exactly when the line
is a report line and the open day already has a report recorded, or the
line is a flight-leg line whose leading day-number differs from the
established day-number; with no open day nothing is ever pushed; and
the lines RPT 0600, one leg line, RPT 1400 produce exactly two duty
days, each holding its own report time. -/
theorem C1_flush_rule :
    (∀ (pre : List Str) (line : Str) (d : SequenceDutyDay),
      (List.foldl dutyStep {} pre).current = some d →
      ((dutyStep (List.foldl dutyStep {} pre) line).duties ≠
          (List.foldl dutyStep {} pre).duties ↔
        (isRptStart (trim line) = true ∧ d.reportLine ≠ none) ∨
        (isLegLine (trim line) = true ∧
          ∃ n, (List.foldl dutyStep {} pre).currentDayNumber = some n ∧
            leadingDigits (trim line) ≠ n))) ∧
    (∀ (st : DutyState) (line : Str), st.current = none →
      (dutyStep st line).duties = st.duties) ∧
    (parseDutyDays [exRpt0600, exLegLine, exRpt1400]).length = 2 ∧
    (parseDutyDays [exRpt0600, exLegLine, exRpt1400]).map (fun d => d.reportTime) =
      [some ['0', '6', '0', '0'], some ['1', '4', '0', '0']] := by
  refine ⟨?_, dutyStep_none_duties, by decide, by decide⟩
  intro pre line d hcur
  exact (dutyStep_flush_iff _ line d hcur (foldl_good pre {} goodState_init)).1

/-- Witness for C1: after processing RPT 0600 the day is open with a
report recorded, so the second report line flushes it. -/
theorem C1_witness :
    (dutyStep (List.foldl dutyStep {} [exRpt0600]) exRpt1400).duties ≠
        (List.foldl dutyStep {} [exRpt0600]).duties ↔
      (isRptStart (trim exRpt1400) = true ∧ exDayAfterRpt.reportLine ≠ none) ∨
      (isLegLine (trim exRpt1400) = true ∧
        ∃ n, (List.foldl dutyStep {} [exRpt0600]).currentDayNumber = some n ∧
          leadingDigits (trim exRpt1400) ≠ n) :=
  C1_flush_rule.1 [exRpt0600] exRpt1400 exDayAfterRpt (by decide)

theorem isRlsStart_not_rpt {t : Str} (h : isRlsStart t = true) : isRptStart t = false := by
  obtain ⟨r, rfl⟩ := isRlsStart_shape h
  rfl

theorem isRlsStart_not_leg {t : Str} (h : isRlsStart t = true) : isLegLine t = false := by
  obtain ⟨r, rfl⟩ := isRlsStart_shape h
  rfl

theorem isRlsStart_nonempty {t : Str} (h : isRlsStart t = true) : t.isEmpty = false := by
  obtain ⟨r, rfl⟩ := isRlsStart_shape h
  rfl

theorem isHotelLine_nonempty {t : Str} (h : isHotelLine t = true) : t.isEmpty = false := by
  cases t with
  | nil => exact absurd h (by decide)
  | cons c cs => rfl

/-- Claim C3 counterexample: a single unclassified free-text line with
no open duty day is dropped entirely, so the grouper emits no duty day
at all, where the claim asserts a day would be opened for it. -/
theorem C3_counterexample : parseDutyDays [exNote] = [] := by decide

/-- Claim C3 (amended): a release line, a hotel line or an unclassified
free-text line never flushes the open duty day; a release or hotel line
attaches to the open day, opening one when none exists; a free-text
line attaches to the open day's summary when a day is open, but when no
day is open it is silently dropped rather than opening one. -/
theorem C3_attach_rule :
    (∀ (st : DutyState) (line : Str),
      isRptStart (trim line) = false → isLegLine (trim line) = false →
      (dutyStep st line).duties = st.duties) ∧
    (∀ (st : DutyState) (line : Str), st.current = none →
      isRlsStart (trim line) = true →
      dutyStep st line =
        { duties := st.duties, current := some (attachRelease {} (trim line)),
          currentDayNumber := none }) ∧
    (∀ (st : DutyState) (line : Str), st.current = none →
      isRptStart (trim line) = false → isLegLine (trim line) = false →
      isRlsStart (trim line) = false → isHotelLine (trim line) = true →
      dutyStep st line =
        { duties := st.duties, current := some (attachHotel {} (trim line)),
          currentDayNumber := none }) ∧
    (∀ (st : DutyState) (line : Str) (d : SequenceDutyDay), st.current = some d →
      isRlsStart (trim line) = true →
      dutyStep st line =
        { duties := st.duties, current := some (attachRelease d (trim line)),
          currentDayNumber := st.currentDayNumber }) ∧
    (∀ (st : DutyState) (line : Str) (d : SequenceDutyDay), st.current = some d →
      isRptStart (trim line) = false → isLegLine (trim line) = false →
      isRlsStart (trim line) = false → isHotelLine (trim line) = true →
      dutyStep st line =
        { duties := st.duties, current := some (attachHotel d (trim line)),
          currentDayNumber := st.currentDayNumber }) ∧
    (∀ (st : DutyState) (line : Str) (d : SequenceDutyDay), st.current = some d →
      (trim line).isEmpty = false →
      isRptStart (trim line) = false → isLegLine (trim line) = false →
      isRlsStart (trim line) = false → isHotelLine (trim line) = false →
      dutyStep st line = { st with current := some (attachSummary d (trim line)) }) ∧
    (∀ (st : DutyState) (line : Str), st.current = none →
      isRptStart (trim line) = false → isLegLine (trim line) = false →
      isRlsStart (trim line) = false → isHotelLine (trim line) = false →
      dutyStep st line = st) := by
  refine ⟨?_, ?_, ?_, ?_, ?_, ?_, ?_⟩
  · intro st line hr hl
    unfold dutyStep
    by_cases h1 : (trim line).isEmpty = true
    · rw [if_pos h1]
    · rw [if_neg h1, if_neg (by simp [hr]), if_neg (by simp [hl])]
      repeat' split
      all_goals rfl
  · intro st line hc hr
    unfold dutyStep
    rw [if_neg (by simp [isRlsStart_nonempty hr]),
      if_neg (by simp [isRlsStart_not_rpt hr]),
      if_neg (by simp [isRlsStart_not_leg hr]), if_pos hr, hc]
  · intro st line hc hr hl hrls hh
    unfold dutyStep
    rw [if_neg (by simp [isHotelLine_nonempty hh]), if_neg (by simp [hr]),
      if_neg (by simp [hl]), if_neg (by simp [hrls]), if_pos hh, hc]
  · intro st line d hc hr
    unfold dutyStep
    rw [if_neg (by simp [isRlsStart_nonempty hr]),
      if_neg (by simp [isRlsStart_not_rpt hr]),
      if_neg (by simp [isRlsStart_not_leg hr]), if_pos hr, hc]
  · intro st line d hc hr hl hrls hh
    unfold dutyStep
    rw [if_neg (by simp [isHotelLine_nonempty hh]), if_neg (by simp [hr]),
      if_neg (by simp [hl]), if_neg (by simp [hrls]), if_pos hh, hc]
  · intro st line d hc hemp hr hl hrls hh
    unfold dutyStep
    rw [if_neg (by simp [hemp]), if_neg (by simp [hr]), if_neg (by simp [hl]),
      if_neg (by simp [hrls]), if_neg (by simp [hh]), hc]
  · intro st line hc hr hl hrls hh
    unfold dutyStep
    by_cases h1 : (trim line).isEmpty = true
    · rw [if_pos h1]
    · rw [if_neg h1, if_neg (by simp [hr]), if_neg (by simp [hl]),
        if_neg (by simp [hrls]), if_neg (by simp [hh]), hc]

/-- Witness for C3: a release line with no open day opens one and
attaches the release, without flushing anything. -/
theorem C3_witness :
    dutyStep {} exRls0900 =
      { duties := [], current := some (attachRelease {} (trim exRls0900)),
        currentDayNumber := none } :=
  C3_attach_rule.2.1 {} exRls0900 rfl (by decide)

theorem nonEmpty_isEmpty_false {α : Type} {l : List α} (h : l ≠ []) : l.isEmpty = false := by
  cases l with
  | nil => exact absurd rfl h
  | cons c cs => rfl

theorem seqStep_inv (P : Str → Prop) (acc : List (List Str) × List Str) (line : Str)
    (hline : P line)
    (hblocks : ∀ b ∈ acc.1, (∃ h t, b = h :: t ∧ isSeqStart h = true) ∧ ∀ l ∈ b, P l)
    (hcur : acc.2 = [] ∨
      ((∃ h t, acc.2 = h :: t ∧ isSeqStart h = true) ∧ ∀ l ∈ acc.2, P l)) :
    (∀ b ∈ (seqStep acc line).1,
      (∃ h t, b = h :: t ∧ isSeqStart h = true) ∧ ∀ l ∈ b, P l) ∧
    ((seqStep acc line).2 = [] ∨
      ((∃ h t, (seqStep acc line).2 = h :: t ∧ isSeqStart h = true) ∧
        ∀ l ∈ (seqStep acc line).2, P l)) := by
  unfold seqStep
  by_cases h1 : isSeqStart line = true
  · rw [if_pos h1]
    dsimp only
    constructor
    · intro b hb
      rcases List.mem_append.mp hb with hb | hb
      · exact hblocks b hb
      · by_cases h2 : acc.2.isEmpty = true
        · rw [if_pos h2] at hb
          simp at hb
        · rw [if_neg h2] at hb
          simp at hb
          subst hb
          rcases hcur with hcur | hcur
          · rw [hcur] at h2
            simp at h2
          · exact hcur
    · right
      refine ⟨⟨line, [], rfl, h1⟩, ?_⟩
      intro l hl
      simp at hl
      subst hl
      exact hline
  · rw [if_neg h1]
    by_cases h2 : acc.2.isEmpty = true
    · rw [if_neg (by simp [h2])]
      exact ⟨hblocks, hcur⟩
    · rw [if_pos (by simp [h2])]
      have hcureq : (∃ h t, acc.2 = h :: t ∧ isSeqStart h = true) ∧ ∀ l ∈ acc.2, P l := by
        rcases hcur with hc | hc
        · rw [hc] at h2
          simp at h2
        · exact hc
      obtain ⟨⟨h, t, heq, hseq⟩, hP⟩ := hcureq
      by_cases h3 : hasTTL line = true
      · rw [if_pos h3]
        dsimp only
        refine ⟨?_, Or.inl rfl⟩
        intro b hb
        rcases List.mem_append.mp hb with hb | hb
        · exact hblocks b hb
        · simp at hb
          subst hb
          refine ⟨⟨h, t ++ [line], by rw [heq]; simp, hseq⟩, ?_⟩
          intro l hl
          rcases List.mem_append.mp hl with hl | hl
          · exact hP l hl
          · simp at hl
            subst hl
            exact hline
      · rw [if_neg h3]
        dsimp only
        refine ⟨hblocks, Or.inr ⟨⟨h, t ++ [line], by rw [heq]; simp, hseq⟩, ?_⟩⟩
        intro l hl
        rcases List.mem_append.mp hl with hl | hl
        · exact hP l hl
        · simp at hl
          subst hl
          exact hline

theorem seqFold_inv (P : Str → Prop) (lines : List Str) :
    ∀ acc, (∀ l ∈ lines, P l) →
    (∀ b ∈ acc.1, (∃ h t, b = h :: t ∧ isSeqStart h = true) ∧ ∀ l ∈ b, P l) →
    (acc.2 = [] ∨
      ((∃ h t, acc.2 = h :: t ∧ isSeqStart h = true) ∧ ∀ l ∈ acc.2, P l)) →
    (∀ b ∈ (lines.foldl seqStep acc).1,
      (∃ h t, b = h :: t ∧ isSeqStart h = true) ∧ ∀ l ∈ b, P l) ∧
    ((lines.foldl seqStep acc).2 = [] ∨
      ((∃ h t, (lines.foldl seqStep acc).2 = h :: t ∧ isSeqStart h = true) ∧
        ∀ l ∈ (lines.foldl seqStep acc).2, P l)) := by
  induction lines with
  | nil =>
      intro acc _ hb hc
      exact ⟨hb, hc⟩
  | cons x xs ih =>
      intro acc hall hb hc
      have hx : P x := hall x (by simp)
      have hrest : ∀ l ∈ xs, P l := fun l hl => hall l (by simp [hl])
      obtain ⟨hb2, hc2⟩ := seqStep_inv P acc x hx hb hc
      exact ih (seqStep acc x) hrest hb2 hc2

theorem jsLines_prop (text : Str) : ∀ l ∈ jsLines text, l ≠ [] ∧ trim l = l := by
  intro l hl
  unfold jsLines at hl
  rw [List.mem_filter] at hl
  obtain ⟨hmem, hne⟩ := hl
  rw [List.mem_map] at hmem
  obtain ⟨y, _, rfl⟩ := hmem
  refine ⟨?_, trim_idem y⟩
  intro hc
  rw [hc] at hne
  simp at hne

/-- Claim C4: every block splitSequences emits is a non-empty list of
trimmed non-empty lines whose first line matches the sequence-start
pattern; a non-SEQ line appended to a non-empty open buffer that
carries the word-bounded TTL marker immediately completes the block and
resets the buffer; and at end of input a non-empty open buffer is
flushed as a final block even without a totals line. -/
theorem C4_splitSequences :
    (∀ (text : Str) (b : List Str), b ∈ splitSequences text →
      (∃ h t, b = h :: t ∧ isSeqStart h = true) ∧
      ∀ l ∈ b, l ≠ [] ∧ trim l = l) ∧
    (∀ (blocks : List (List Str)) (cur : List Str) (line : Str),
      cur ≠ [] → isSeqStart line = false → hasTTL line = true →
      seqStep (blocks, cur) line = (blocks ++ [cur ++ [line]], [])) ∧
    (∀ text : Str,
      ((jsLines text).foldl seqStep ([], [])).2 ≠ [] →
      splitSequences text =
        ((jsLines text).foldl seqStep ([], [])).1 ++
          [((jsLines text).foldl seqStep ([], [])).2]) := by
  refine ⟨?_, ?_, ?_⟩
  · intro text b hb
    obtain ⟨hblocks, hcur⟩ :=
      seqFold_inv (fun l => l ≠ [] ∧ trim l = l) (jsLines text) ([], [])
        (jsLines_prop text) (by intro b hb; simp at hb) (Or.inl rfl)
    unfold splitSequences at hb
    rcases List.mem_append.mp hb with hb | hb
    · exact hblocks b hb
    · by_cases h2 : ((jsLines text).foldl seqStep ([], [])).2.isEmpty = true
      · rw [if_pos h2] at hb
        simp at hb
      · rw [if_neg h2] at hb
        simp at hb
        subst hb
        rcases hcur with hc | hc
        · rw [hc] at h2
          simp at h2
        · exact hc
  · intro blocks cur line hcne hseq httl
    unfold seqStep
    rw [if_neg (by simp [hseq]), if_pos (by simp [nonEmpty_isEmpty_false hcne]),
      if_pos httl]
  · intro text hne
    unfold splitSequences
    dsimp only
    rw [if_neg (by simp [nonEmpty_isEmpty_false hne])]

/-- Witness for C4: the single block of the example page starts with
its SEQ line and consists of trimmed non-empty lines. -/
theorem C4_witness :
    (∃ h t, (splitSequences exPage6).headD [] = h :: t ∧ isSeqStart h = true) ∧
    ∀ l ∈ (splitSequences exPage6).headD [], l ≠ [] ∧ trim l = l :=
  C4_splitSequences.1 exPage6 ((splitSequences exPage6).headD []) (by decide)

theorem jsSplitWs_trimmed {l : Str} (hne : l ≠ []) (ht : trim l = l) :
    jsSplitWs l = nonWsRuns l := by
  rcases l with _ | ⟨c, cs⟩
  · exact absurd rfl hne
  have hhead : isWsC c = false := trim_head c (by rw [ht]; rfl)
  unfold jsSplitWs
  simp only [hhead, Bool.false_eq_true, if_false, List.nil_append]
  rcases hgl : (c :: cs).getLast? with _ | d
  · simp at hgl
  · have hd : isWsC d = false := trim_last d (by rw [ht]; exact hgl)
    dsimp only
    simp only [hd, Bool.false_eq_true, if_false, List.append_nil]

theorem nonWsRunsAux_mem_ne_nil : ∀ (l cur : Str), ∀ t ∈ nonWsRunsAux l cur, t ≠ [] := by
  intro l
  induction l with
  | nil =>
      intro cur t ht
      unfold nonWsRunsAux at ht
      by_cases h : cur.isEmpty = true
      · rw [if_pos h] at ht
        simp at ht
      · rw [if_neg h] at ht
        simp at ht
        subst ht
        intro hc
        rw [hc] at h
        simp at h
  | cons c cs ih =>
      intro cur t ht
      unfold nonWsRunsAux at ht
      by_cases hw : isWsC c = true
      · rw [if_pos hw] at ht
        rcases List.mem_append.mp ht with ht | ht
        · by_cases h : cur.isEmpty = true
          · rw [if_pos h] at ht
            simp at ht
          · rw [if_neg h] at ht
            simp at ht
            subst ht
            intro hc
            rw [hc] at h
            simp at h
        · exact ih [] t ht
      · rw [if_neg hw] at ht
        exact ih (cur ++ [c]) t ht

theorem nonWsRuns_ne_nil (l : Str) : ∀ t ∈ nonWsRuns l, t ≠ [] :=
  nonWsRunsAux_mem_ne_nil l []

theorem headerScan_inst_some (ts : List Str) : ∀ (v : ℕ) (pos : Positions),
    (headerScan ts (some v) pos).1 = some v := by
  induction ts with
  | nil => intro v pos; rfl
  | cons t ts ih =>
      intro v pos
      unfold headerScan
      rw [if_neg (by simp)]
      rcases hm : posMatch t with _ | cn
      · exact ih v pos
      · exact ih v _

theorem headerScan_inst_none (ts : List Str) : ∀ pos : Positions,
    (headerScan ts none pos).1 = (ts.find? isPureNumeric).map natOfDigits := by
  induction ts with
  | nil => intro pos; rfl
  | cons t ts ih =>
      intro pos
      unfold headerScan
      by_cases hn : isPureNumeric t = true
      · rw [if_pos (by simp [hn])]
        rw [headerScan_inst_some]
        rw [List.find?_cons_of_pos _ hn]
        rfl
      · rw [if_neg (by simp [hn])]
        have hfind : List.find? isPureNumeric (t :: ts) = List.find? isPureNumeric ts := by
          rw [List.find?_cons_of_neg]
          simp [hn]
        rcases hm : posMatch t with _ | cn
        · rw [hfind]
          exact ih pos
        · rw [hfind]
          exact ih _

theorem getPos_setPos_same (p : Positions) (c : PosCode) (n : ℕ) :
    getPos (setPos p c n) c = some n := by
  cases c <;> rfl

theorem getPos_setPos_other (p : Positions) (c c2 : PosCode) (n : ℕ) (h : c2 ≠ c) :
    getPos (setPos p c2 n) c = getPos p c := by
  cases c <;> cases c2 <;> first | rfl | exact absurd rfl h

theorem getPos_empty (c : PosCode) : getPos {} c = none := by
  cases c <;> rfl

theorem posIsEmpty_getPos {p : Positions} (h : posIsEmpty p = true) (c : PosCode) :
    getPos p c = none := by
  unfold posIsEmpty at h
  simp only [Bool.and_eq_true, Option.isNone_iff_eq_none] at h
  cases c
  · exact h.1.1.1.2
  · exact h.1.1.2
  · exact h.1.2
  · exact h.1.1.1.1
  · exact h.2

theorem opt_match_id {α : Type} (o : Option α) :
    (match o with | some v => some v | none => (none : Option α)) = o := by
  rcases o <;> rfl

theorem posMatch_shape {t : Str} {cn : PosCode × ℕ} (h : posMatch t = some cn) :
    ∃ a b r, t = a :: b :: r ∧ isDigitC a = false := by
  unfold posMatch at h
  split at h
  · exact ⟨'C', 'A', _, rfl, by decide⟩
  · exact ⟨'F', 'O', _, rfl, by decide⟩
  · exact ⟨'R', 'L', _, rfl, by decide⟩
  · exact ⟨'A', 'P', _, rfl, by decide⟩
  · exact ⟨'R', 'S', _, rfl, by decide⟩
  · cases h

theorem isPureNumeric_posMatch {t : Str} (h : isPureNumeric t = true) :
    posMatch t = none := by
  rcases hm : posMatch t with _ | cn
  · rfl
  · exfalso
    obtain ⟨a, b, r, rfl, hd⟩ := posMatch_shape hm
    unfold isPureNumeric at h
    rcases (Bool.and_eq_true _ _).mp h with ⟨_, hall⟩
    have := List.all_eq_true.mp hall a (by simp)
    rw [this] at hd
    cases hd

theorem headerScan_pos (ts : List Str) : ∀ (inst : Option ℕ) (pos : Positions) (c : PosCode),
    getPos (headerScan ts inst pos).2 c =
      (match lastPosVal c ts with
       | some v => some v
       | none => getPos pos c) := by
  induction ts with
  | nil => intro inst pos c; rfl
  | cons t ts ih =>
      intro inst pos c
      unfold headerScan
      by_cases hcond : (isPureNumeric t && inst.isNone) = true
      · rw [if_pos hcond]
        have hnum : isPureNumeric t = true := ((Bool.and_eq_true _ _).mp hcond).1
        have hpm : posMatch t = none := isPureNumeric_posMatch hnum
        have hlast : lastPosVal c (t :: ts) = lastPosVal c ts := by
          unfold lastPosVal
          rw [List.filterMap_cons, hpm]
        rw [hlast]
        exact ih _ pos c
      · rw [if_neg hcond]
        rcases hm : posMatch t with _ | cn
        · have hlast : lastPosVal c (t :: ts) = lastPosVal c ts := by
            unfold lastPosVal
            rw [List.filterMap_cons, hm]
          rw [hlast]
          exact ih inst pos c
        · by_cases hcc : cn.1 = c
          · have hlast : lastPosVal c (t :: ts) =
                (match lastPosVal c ts with
                 | some v => some v
                 | none => some cn.2) := by
              unfold lastPosVal
              rw [List.filterMap_cons, hm, List.filter_cons, if_pos (by simp [hcc])]
              rcases hft : List.filter (fun x => decide (x.1 = c))
                  (List.filterMap posMatch ts) with _ | ⟨x, xs⟩
              · rw [hft]
                rfl
              · rw [hft, List.getLast?_cons_cons]
                rcases hgl : (x :: xs).getLast? with _ | y
                · simp at hgl
                · rfl
            rw [hlast]
            rw [ih inst (setPos pos cn.1 cn.2) c]
            rcases lastPosVal c ts with _ | v
            · rw [← hcc]
              exact getPos_setPos_same pos cn.1 cn.2
            · rfl
          · have hlast : lastPosVal c (t :: ts) = lastPosVal c ts := by
              unfold lastPosVal
              rw [List.filterMap_cons, hm, List.filter_cons, if_neg (by simp [hcc])]
            rw [hlast]
            rw [ih inst (setPos pos cn.1 cn.2) c]
            rcases lastPosVal c ts with _ | v
            · exact getPos_setPos_other pos c cn.1 cn.2 hcc
            · rfl

theorem parseSequenceHeader_facts (line : Str) (hne : line ≠ []) (ht : trim line = line) :
    (parseSequenceHeader line).sequenceNumber =
      (match (nonWsRuns line).get? 1 with
       | some t => t
       | none => ((nonWsRuns line).headD []).filter isDigitC) ∧
    (parseSequenceHeader line).instancesInMonth =
      (((nonWsRuns line).drop 2).find? isPureNumeric).map natOfDigits ∧
    ∀ c : PosCode,
      posLookup (parseSequenceHeader line).positions c =
        lastPosVal c ((nonWsRuns line).drop 2) := by
  unfold parseSequenceHeader
  rw [jsSplitWs_trimmed hne ht]
  dsimp only
  refine ⟨?_, ?_, ?_⟩
  · rcases hg : (nonWsRuns line).get? 1 with _ | t
    · rfl
    · have htne : t ≠ [] := nonWsRuns_ne_nil line t (List.get?_mem hg)
      dsimp only
      rw [if_neg (by simp [nonEmpty_isEmpty_false htne])]
  · exact headerScan_inst_none _ _
  · intro c
    have hscan := headerScan_pos ((nonWsRuns line).drop 2) none {} c
    rw [getPos_empty] at hscan
    by_cases hpe : posIsEmpty (headerScan ((nonWsRuns line).drop 2) none {}).2 = true
    · rw [if_pos hpe]
      have hg0 : getPos (headerScan ((nonWsRuns line).drop 2) none {}).2 c = none :=
        posIsEmpty_getPos hpe c
      rw [hg0] at hscan
      unfold posLookup
      rcases hlp : lastPosVal c ((nonWsRuns line).drop 2) with _ | v
      · rfl
      · rw [hlp] at hscan
        cases hscan
    · rw [if_neg hpe]
      unfold posLookup
      dsimp only
      rw [hscan]
      rcases lastPosVal c (List.drop 2 (nonWsRuns line)) with _ | v
      · rfl
      · rfl

/-- Claim C6: on the example page, the sequence parser yields one
record with sequence number 1234, two instances in month, position
counts CA 2 and FO 1, and totals credit 12.30, duty 9.15, block 8.00;
in general the header parser takes the sequence number from the second
whitespace token when present (else the digits of the first token),
sets instancesInMonth from only the first purely numeric later token,
and accumulates position-code tokens with a repeated code overwritten
by its last occurrence. -/
theorem C6_header_totals :
    (splitSequences exPage6).length = 1 ∧
    (parseSequence ((splitSequences exPage6).headD [])).sequenceNumber =
      ['1', '2', '3', '4'] ∧
    (parseSequence ((splitSequences exPage6).headD [])).instancesInMonth = some 2 ∧
    (parseSequence ((splitSequences exPage6).headD [])).positions =
      some { ap := none, ca := some 2, fo := some 1, rl := none, rs := none } ∧
    (parseSequence ((splitSequences exPage6).headD [])).totals =
      some { credit := some (123 / 10), dutyHours := some (183 / 20),
             blockHours := some 8 } ∧
    (∀ line : Str, line ≠ [] → trim line = line →
      (parseSequenceHeader line).sequenceNumber =
        (match (nonWsRuns line).get? 1 with
         | some t => t
         | none => ((nonWsRuns line).headD []).filter isDigitC) ∧
      (parseSequenceHeader line).instancesInMonth =
        (((nonWsRuns line).drop 2).find? isPureNumeric).map natOfDigits ∧
      ∀ c : PosCode,
        posLookup (parseSequenceHeader line).positions c =
          lastPosVal c ((nonWsRuns line).drop 2)) := by
  refine ⟨by decide, by decide, by decide, by decide, by with_unfolding_all rfl, ?_⟩
  exact parseSequenceHeader_facts

/-- Witness for C6: the general header facts instantiated on the
example header line. -/
theorem C6_witness :
    (parseSequenceHeader exHeader).sequenceNumber =
      (match (nonWsRuns exHeader).get? 1 with
       | some t => t
       | none => ((nonWsRuns exHeader).headD []).filter isDigitC) ∧
    (parseSequenceHeader exHeader).instancesInMonth =
      (((nonWsRuns exHeader).drop 2).find? isPureNumeric).map natOfDigits ∧
    ∀ c : PosCode,
      posLookup (parseSequenceHeader exHeader).positions c =
        lastPosVal c ((nonWsRuns exHeader).drop 2) :=
  C6_header_totals.2.2.2.2.2 exHeader (by decide) (by decide)

theorem fdpAt_shape (l cap : Str) (h : fdpAt l = some cap) :
    cap ≠ [] ∧ ∀ c ∈ cap, classFdpC c = true := by
  unfold fdpAt at h
  rcases l with _ | ⟨a, _ | ⟨b, _ | ⟨c0, tl⟩⟩⟩
  · exact nomatch h
  · exact nomatch h
  · exact nomatch h
  · dsimp only at h
    by_cases h1 : (eqCI a 'F' && eqCI b 'D' && eqCI c0 'P') = true
    · rw [if_pos h1] at h
      rcases h2 : chompRun isWsC tl with _ | tl2
      · rw [h2] at h
        exact nomatch h
      · rw [h2] at h
        dsimp only at h
        by_cases h3 : startsCI ['C', 'A', 'L', 'E', 'N', 'D', 'A', 'R'] tl2 = true
        · rw [if_pos h3] at h
          rcases h4 : chompRun isWsC (tl2.drop 8) with _ | tl3
          · rw [h4] at h
            exact nomatch h
          · rw [h4] at h
            dsimp only at h
            by_cases h5 : (tl3.takeWhile classFdpC).isEmpty = true
            · rw [if_pos h5] at h
              exact nomatch h
            · rw [if_neg h5] at h
              injection h with h
              subst h
              refine ⟨?_, fun c hc => mem_takeWhile_imp c hc⟩
              intro hc
              rw [hc] at h5
              exact h5 rfl
        · rw [if_neg h3] at h
          exact nomatch h
    · rw [if_neg h1] at h
      exact nomatch h

theorem fdpCapture_shape (page cap : Str) (h : searchPos fdpAt page = some cap) :
    cap ≠ [] ∧ ∀ c ∈ cap, classFdpC c = true :=
  searchPos_imp fdpAt (fun v => v ≠ [] ∧ ∀ c ∈ v, classFdpC c = true)
    (fun l v hv => fdpAt_shape l v hv) page cap h

theorem monthPart_hyphens {cap : Str} (hall : ∀ c ∈ cap, classFdpC c = true) :
    ∀ c ∈ cap.takeWhile (fun c => !splitSepC c), c = '-' := by
  intro c hc
  have h1 : (!splitSepC c) = true := mem_takeWhile_imp c hc
  have h2 : classFdpC c = true :=
    hall c ((cap.takeWhile_sublist (fun c => !splitSepC c)).subset hc)
  rw [Bool.not_eq_true'] at h1
  unfold splitSepC at h1
  unfold classFdpC at h2
  simp only [Bool.or_eq_true, decide_eq_true_eq] at h2
  rcases h2 with ((hd | hsl) | hdash) | hdash2
  · exfalso
    unfold isDigitC at hd
    simp only [Bool.and_eq_true, decide_eq_true_eq] at hd
    have htrue : (decide (47 ≤ c.toNat) && decide (c.toNat ≤ 8211)) = true := by
      have ha : 47 ≤ c.toNat := by omega
      have hb : c.toNat ≤ 8211 := by omega
      simp [ha, hb]
    rw [htrue] at h1
    exact nomatch h1
  · subst hsl
    exact absurd h1 (by decide)
  · exact hdash
  · subst hdash2
    exact absurd h1 (by decide)

theorem fdpMonthYear_none (page : Str) : fdpMonthYear page = none := by
  unfold fdpMonthYear
  rcases hs : searchPos fdpAt page with _ | cap
  · rfl
  · obtain ⟨hne, hall⟩ := fdpCapture_shape page cap hs
    have hmp := monthPart_hyphens hall
    dsimp only
    rcases hm : cap.takeWhile (fun c => !splitSepC c) with _ | ⟨x, _ | ⟨y, rest⟩⟩
    · with_unfolding_all rfl
    · have hx : x = '-' := hmp x (by rw [hm]; simp)
      rw [hx]
      with_unfolding_all rfl
    · have hx : x = '-' := hmp x (by rw [hm]; simp)
      have hy : y = '-' := hmp y (by rw [hm]; simp)
      rw [hx, hy]
      with_unfolding_all rfl

/-- Claim C2 evidence: the FDP CALENDAR pattern of the month/year
inferencer can never produce a result, because the captured token is
split with a character class whose unescaped hyphen forms a range
covering every digit, so the month segment contains only hyphens and
never parses as a month number 1..12; on the page FDP CALENDAR
12/01-12/31 2025 the pattern itself matches and captures 12/01-12/31,
yet extractMonthYear falls through every matcher and returns the
UNKNOWN sentinel with the current year instead of DEC 2025. -/
theorem C2_fdp_calendar_dead :
    (∀ page : Str, fdpMonthYear page = none) ∧
    searchPos fdpAt exFdpPage = some exFdpCapture ∧
    extractMonthYear [exFdpPage] exBidPdf 2026 = (UNKNOWN, 2026) := by
  refine ⟨fdpMonthYear_none, by decide, by with_unfolding_all decide⟩

/-- Witness for C5: the three-token line leaves exactly day, date and
equipment set. -/
theorem C5_witness :
    (parseFlightLeg exShortLeg).day = (nonWsRuns exShortLeg).get? 0 ∧
    (parseFlightLeg exShortLeg).date = (nonWsRuns exShortLeg).get? 1 ∧
    (parseFlightLeg exShortLeg).equipment = (nonWsRuns exShortLeg).get? 2 ∧
    (parseFlightLeg exShortLeg).flightNumber = none ∧
    (parseFlightLeg exShortLeg).departureStation = none ∧
    (parseFlightLeg exShortLeg).departureTime = none ∧
    (parseFlightLeg exShortLeg).meal = none ∧
    (parseFlightLeg exShortLeg).arrivalStation = none ∧
    (parseFlightLeg exShortLeg).arrivalTime = none ∧
    (parseFlightLeg exShortLeg).blockTime = none ∧
    (parseFlightLeg exShortLeg).remarks = none :=
  C5_parseFlightLeg_positional.2.2.2 exShortLeg (by decide)


theorem nonWsRunsAux_ne_nil_of : ∀ (l cur : Str), cur ≠ [] → nonWsRunsAux l cur ≠ [] := by
  intro l
  induction l with
  | nil =>
      intro cur h
      unfold nonWsRunsAux
      rw [if_neg (by simp [nonEmpty_isEmpty_false h])]
      simp
  | cons c cs ih =>
      intro cur h
      unfold nonWsRunsAux
      by_cases hw : isWsC c = true
      · rw [if_pos hw, if_neg (by simp [nonEmpty_isEmpty_false h])]
        simp
      · rw [if_neg hw]
        exact ih (cur ++ [c]) (by simp)

theorem nonWsRuns_ne_nil_of_trimmed {h : Str} (hne : h ≠ []) (ht : trim h = h) :
    nonWsRuns h ≠ [] := by
  rcases h with _ | ⟨c, cs⟩
  · exact absurd rfl hne
  have hc : isWsC c = false := trim_head c (by rw [ht]; rfl)
  unfold nonWsRuns nonWsRunsAux
  rw [if_neg (by simp [hc])]
  exact nonWsRunsAux_ne_nil_of cs [c] (by simp)

theorem dutyStep_hotel_inv (st : DutyState) (line : Str)
    (hd : ∀ d ∈ st.duties, ∀ h, d.hotelLayover = some h → h ≠ [] ∧ trim h = h)
    (hc : ∀ d h, st.current = some d → d.hotelLayover = some h → h ≠ [] ∧ trim h = h) :
    (∀ d ∈ (dutyStep st line).duties, ∀ h, d.hotelLayover = some h →
      h ≠ [] ∧ trim h = h) ∧
    (∀ d h, (dutyStep st line).current = some d → d.hotelLayover = some h →
      h ≠ [] ∧ trim h = h) := by
  have hfresh : ∀ (t h : Str), (attachReport {} t).hotelLayover = some h → False := by
    intro t h hx
    cases hx
  have hflp : ∀ (t h : Str), (attachLeg {} t).hotelLayover = some h → False := by
    intro t h hx
    cases hx
  have hfrl : ∀ (t h : Str), (attachRelease {} t).hotelLayover = some h → False := by
    intro t h hx
    cases hx
  unfold dutyStep
  by_cases h1 : (trim line).isEmpty = true
  · rw [if_pos h1]
    exact ⟨hd, hc⟩
  rw [if_neg h1]
  have htr : trim (trim line) = trim line := trim_idem line
  have htne : trim line ≠ [] := by
    intro hcon
    rw [hcon] at h1
    exact h1 rfl
  by_cases h2 : isRptStart (trim line) = true
  · rw [if_pos h2]
    cases hcur : st.current with
    | none =>
        refine ⟨hd, ?_⟩
        intro d h hx hh
        injection hx with hx
        subst hx
        exact absurd hh (by intro hh2; exact hfresh _ _ hh2)
    | some d0 =>
        dsimp only
        by_cases h3 : otruthy d0.reportLine = true
        · rw [if_pos h3]
          refine ⟨?_, ?_⟩
          · intro d hdm h hh
            rcases List.mem_append.mp hdm with hm | hm
            · exact hd d hm h hh
            · simp at hm
              subst hm
              exact hc d h hcur hh
          · intro d h hx hh
            injection hx with hx
            subst hx
            exact absurd hh (by intro hh2; exact hfresh _ _ hh2)
        · rw [if_neg h3]
          refine ⟨hd, ?_⟩
          intro d h hx hh
          injection hx with hx
          subst hx
          exact hc d0 h hcur hh
  rw [if_neg h2]
  by_cases h4 : isLegLine (trim line) = true
  · rw [if_pos h4]
    dsimp only
    cases hcur : st.current with
    | none =>
        refine ⟨hd, ?_⟩
        intro d h hx hh
        injection hx with hx
        subst hx
        exact absurd hh (by intro hh2; exact hflp _ _ hh2)
    | some d0 =>
        dsimp only
        cases hdc : st.currentDayNumber with
        | none =>
            dsimp only
            refine ⟨hd, ?_⟩
            intro d h hx hh
            injection hx with hx
            subst hx
            exact hc d0 h hcur hh
        | some m =>
            dsimp only
            by_cases h5 : (!m.isEmpty && decide (leadingDigits (trim line) ≠ m)) = true
            · simp only [h5, if_true]
              refine ⟨?_, ?_⟩
              · intro d hdm h hh
                rcases List.mem_append.mp hdm with hm | hm
                · exact hd d hm h hh
                · simp at hm
                  subst hm
                  exact hc d h hcur hh
              · intro d h hx hh
                injection hx with hx
                subst hx
                exact absurd hh (by intro hh2; exact hflp _ _ hh2)
            · simp only [if_neg h5]
              refine ⟨hd, ?_⟩
              intro d h hx hh
              injection hx with hx
              subst hx
              exact hc d0 h hcur hh
  rw [if_neg h4]
  by_cases h6 : isRlsStart (trim line) = true
  · rw [if_pos h6]
    cases hcur : st.current with
    | none =>
        refine ⟨hd, ?_⟩
        intro d h hx hh
        injection hx with hx
        subst hx
        exact absurd hh (by intro hh2; exact hfrl _ _ hh2)
    | some d0 =>
        refine ⟨hd, ?_⟩
        intro d h hx hh
        injection hx with hx
        subst hx
        exact hc d0 h hcur hh
  rw [if_neg h6]
  by_cases h7 : isHotelLine (trim line) = true
  · rw [if_pos h7]
    cases hcur : st.current with
    | none =>
        refine ⟨hd, ?_⟩
        intro d h hx hh
        injection hx with hx
        subst hx
        have : (attachHotel ({} : SequenceDutyDay) (trim line)).hotelLayover =
            some (trim line) := rfl
        rw [this] at hh
        injection hh with hh
        rw [← hh]
        exact ⟨htne, htr⟩
    | some d0 =>
        refine ⟨hd, ?_⟩
        intro d h hx hh
        injection hx with hx
        subst hx
        have : (attachHotel d0 (trim line)).hotelLayover = some (trim line) := rfl
        rw [this] at hh
        injection hh with hh
        rw [← hh]
        exact ⟨htne, htr⟩
  rw [if_neg h7]
  cases hcur : st.current with
  | none => exact ⟨hd, hc⟩
  | some d0 =>
      refine ⟨hd, ?_⟩
      intro d h hx hh
      injection hx with hx
      subst hx
      exact hc d0 h hcur hh

theorem foldl_hotel_inv (lines : List Str) :
    ∀ st : DutyState,
    (∀ d ∈ st.duties, ∀ h, d.hotelLayover = some h → h ≠ [] ∧ trim h = h) →
    (∀ d h, st.current = some d → d.hotelLayover = some h → h ≠ [] ∧ trim h = h) →
    (∀ d ∈ (lines.foldl dutyStep st).duties, ∀ h, d.hotelLayover = some h →
      h ≠ [] ∧ trim h = h) ∧
    (∀ d h, (lines.foldl dutyStep st).current = some d → d.hotelLayover = some h →
      h ≠ [] ∧ trim h = h) := by
  induction lines with
  | nil => intro st hd hc; exact ⟨hd, hc⟩
  | cons l ls ih =>
      intro st hd hc
      obtain ⟨hd2, hc2⟩ := dutyStep_hotel_inv st l hd hc
      exact ih (dutyStep st l) hd2 hc2

theorem parseDutyDays_hotel (lines : List Str) :
    ∀ d ∈ parseDutyDays lines, ∀ h, d.hotelLayover = some h → h ≠ [] ∧ trim h = h := by
  intro d hdm h hh
  unfold parseDutyDays at hdm
  obtain ⟨hd2, hc2⟩ := foldl_hotel_inv lines {} (by intro d hm; simp at hm)
    (by intro d h hx; cases hx)
  rcases List.mem_append.mp hdm with hm | hm
  · exact hd2 d hm h hh
  · rcases hcur : (lines.foldl dutyStep {}).current with _ | d0
    · rw [hcur] at hm
      simp at hm
    · rw [hcur] at hm
      simp at hm
      subst hm
      exact hc2 d h hcur hh

/-- Claim C10: for every duty day the grouper emits, the final output's
layover is absent exactly when the day recorded no hotel line; the
uploaded duty's layover is parseLayover of that recorded line; and when
a hotel line exists, the layover's station is the line's first
whitespace token uppercased, the hotel name is the remaining tokens
joined with spaces (absent when there are none), the ground rest is the
first short decimal of the line rendered as a clock string, and the
phone and transport fields are always absent. -/
theorem C10_layover :
    ∀ (lines : List Str) (d : SequenceDutyDay), d ∈ parseDutyDays lines →
      ((parseLayover d.hotelLayover = none) ↔ d.hotelLayover = none) ∧
      (∀ idx : ℕ, (mapDuty idx d).layover = parseLayover d.hotelLayover) ∧
      (∀ h : Str, d.hotelLayover = some h →
        ∃ tok, (nonWsRuns h).head? = some tok ∧
          parseLayover (some h) =
            some { station := some (tok.map upC)
                   hotel_name :=
                     if (List.intercalate [' '] (nonWsRuns h).tail).isEmpty then none
                     else some (List.intercalate [' '] (nonWsRuns h).tail)
                   hotel_phone := none
                   transport_name := none
                   transport_phone := none
                   ground_rest := hoursToClockStr (searchPos decSearchAt h) }) := by
  intro lines d hdm
  have hprop := parseDutyDays_hotel lines d hdm
  have hsome : ∀ h : Str, d.hotelLayover = some h →
      ∃ tok, (nonWsRuns h).head? = some tok ∧
        parseLayover (some h) =
          some { station := some (tok.map upC)
                 hotel_name :=
                   if (List.intercalate [' '] (nonWsRuns h).tail).isEmpty then none
                   else some (List.intercalate [' '] (nonWsRuns h).tail)
                 hotel_phone := none
                 transport_name := none
                 transport_phone := none
                 ground_rest := hoursToClockStr (searchPos decSearchAt h) } := by
    intro h hh
    obtain ⟨hne, htr⟩ := hprop h hh
    have hC : ¬(h.isEmpty = true) := by simp [nonEmpty_isEmpty_false hne]
    have hchar : parseLayover (some h) =
        some { station := (nonWsRuns h).head?.map (fun t => t.map upC)
               hotel_name :=
                 if (List.intercalate [' '] (nonWsRuns h).tail).isEmpty then none
                 else some (List.intercalate [' '] (nonWsRuns h).tail)
               hotel_phone := none
               transport_name := none
               transport_phone := none
               ground_rest := hoursToClockStr (searchPos decSearchAt h) } := by
      unfold parseLayover
      dsimp only
      rw [if_neg hC]
    rcases hruns : nonWsRuns h with _ | ⟨tok, toks⟩
    · exact absurd hruns (nonWsRuns_ne_nil_of_trimmed hne htr)
    · refine ⟨tok, rfl, ?_⟩
      rw [hchar, hruns]
      rfl
  refine ⟨?_, fun idx => rfl, hsome⟩
  constructor
  · intro hnone
    rcases hh : d.hotelLayover with _ | h
    · rfl
    · obtain ⟨tok, _, heq⟩ := hsome h hh
      rw [hh, heq] at hnone
      cases hnone
  · intro hnone
    rw [hnone]
    rfl

/-- Witness for C10: the single duty day produced from the example
hotel line has a layover whose fields follow the recorded line. -/
theorem C10_witness :
    ((parseLayover ((parseDutyDays [exHotelLine]).headD {}).hotelLayover = none) ↔
      ((parseDutyDays [exHotelLine]).headD {}).hotelLayover = none) ∧
    (∀ idx : ℕ, (mapDuty idx ((parseDutyDays [exHotelLine]).headD {})).layover =
      parseLayover ((parseDutyDays [exHotelLine]).headD {}).hotelLayover) ∧
    (∀ h : Str, ((parseDutyDays [exHotelLine]).headD {}).hotelLayover = some h →
      ∃ tok, (nonWsRuns h).head? = some tok ∧
        parseLayover (some h) =
          some { station := some (tok.map upC)
                 hotel_name :=
                   if (List.intercalate [' '] (nonWsRuns h).tail).isEmpty then none
                   else some (List.intercalate [' '] (nonWsRuns h).tail)
                 hotel_phone := none
                 transport_name := none
                 transport_phone := none
                 ground_rest := hoursToClockStr (searchPos decSearchAt h) }) :=
  C10_layover [exHotelLine] ((parseDutyDays [exHotelLine]).headD {}) (by decide)

/-- C8: downstream of the single text-extraction call, the pipeline is
total (every step is a Lean function, so it terminates and never
throws) and degrades by omission: the packet carries one uploaded
sequence per block split from the effective pages, whatever their
content; a block with no TTL line yields a record with absent totals
while its duty days are still grouped from the remaining lines and its
header is still parsed; duty mapping passes report, release and layover
through the total parsers and keeps every leg; each falsy input to the
normalizers (parseClock, hoursToClock, parseLayover, parseCalendarDay)
resolves to an explicit none; and assembly keeps one uploaded duty per
grouped duty day, with absent totals values mapped to absent clock
strings. -/
theorem C8_graceful :
    (∀ (rawText fileName : Str) (nowYear : ℕ),
      (parseBidPdfText rawText fileName nowYear).sequences.length =
        ((if (splitIntoPages rawText).isEmpty then [rawText]
          else splitIntoPages rawText).map
            (fun p => (splitSequences p).length)).sum) ∧
    (∀ (header : Str) (rest : List Str), rest.findIdx? hasTTL = none →
      (parseSequence (header :: rest)).totals = none ∧
      (parseSequence (header :: rest)).dutyDays = parseDutyDays rest ∧
      (parseSequence (header :: rest)).sequenceNumber =
        (parseSequenceHeader header).sequenceNumber) ∧
    (∀ (idx : ℕ) (duty : SequenceDutyDay),
      (mapDuty idx duty).report_local = parseClock duty.reportTime ∧
      (mapDuty idx duty).release_local = parseClock duty.releaseTime ∧
      (mapDuty idx duty).layover = parseLayover duty.hotelLayover ∧
      (mapDuty idx duty).legs.length = duty.legs.length) ∧
    (parseClock none = none ∧ hoursToClock none = none ∧
      parseLayover none = none ∧
      (∀ mi y : ℕ, parseCalendarDay none mi y = none)) ∧
    (∀ (record : SequenceRecord) (mi y : ℕ) (dr : Str × Str),
      (toUploadedSequence record mi y dr).duties.length =
        record.dutyDays.length ∧
      (toUploadedSequence record mi y dr).length_days =
        record.dutyDays.length ∧
      (record.totals = none →
        (toUploadedSequence record mi y dr).totals =
          { block_time := none, credit_time := none, tafb := none })) := by
  refine ⟨?_, ?_, ?_, ⟨rfl, rfl, rfl, fun mi y => rfl⟩, ?_⟩
  · intro rawText fileName nowYear
    simp [parseBidPdfText, Function.comp_def]
  · intro header rest h
    unfold parseSequence
    dsimp only
    rw [h]
    exact ⟨rfl, rfl, rfl⟩
  · intro idx duty
    refine ⟨rfl, rfl, rfl, ?_⟩
    simp [mapDuty]
  · intro record mi y dr
    refine ⟨by simp [toUploadedSequence], rfl, ?_⟩
    intro h
    simp [toUploadedSequence, h, hoursToClock]

/-- C9: when month inference falls through to the UNKNOWN sentinel, the
UNKNOWN month has index -1 in MONTHS, the assembler clamps that index to
0, so the packet's metadata keeps month UNKNOWN and the fallback year
while bid_period_start, bid_period_end and every sequence (hence every
resolved calendar start date) are built with month index 0, January, of
that year. -/
theorem C9_unknown_clamp :
    ∀ (rawText fileName : Str) (nowYear y : ℕ),
      extractMonthYear (splitIntoPages rawText) fileName nowYear = (UNKNOWN, y) →
      monthsIndexOf UNKNOWN = -1 ∧
      (parseBidPdfText rawText fileName nowYear).metadata.month = UNKNOWN ∧
      (parseBidPdfText rawText fileName nowYear).metadata.year = y ∧
      (parseBidPdfText rawText fileName nowYear).metadata.bid_period_start =
        (buildDisplayRange 0 y).1 ∧
      (parseBidPdfText rawText fileName nowYear).metadata.bid_period_end =
        (buildDisplayRange 0 y).2 ∧
      (parseBidPdfText rawText fileName nowYear).sequences =
        ((if (splitIntoPages rawText).isEmpty then [rawText]
          else splitIntoPages rawText).map
            (fun p => (splitSequences p).map parseSequence)).flatten.map
          (fun r => toUploadedSequence r 0 y (buildDisplayRange 0 y)) := by
  intro rawText fileName nowYear y h
  have hm : monthsIndexOf UNKNOWN = -1 := by decide
  have hclamp : ((0 : ℤ) ⊔ (-1 : ℤ)).toNat = 0 := by decide
  refine ⟨hm, ?_, ?_, ?_, ?_, ?_⟩ <;>
    simp [parseBidPdfText, h, hm, hclamp]

/-- Witness for C9: the example raw text carries no month cue and its
file name none either, so inference falls through to UNKNOWN with the
given current year 2026, and the packet's display range is January
2026. -/
theorem C9_witness :
    (parseBidPdfText exRaw9 exRosterPdf 2026).metadata.month = UNKNOWN ∧
    (parseBidPdfText exRaw9 exRosterPdf 2026).metadata.year = 2026 ∧
    (parseBidPdfText exRaw9 exRosterPdf 2026).metadata.bid_period_start =
      (buildDisplayRange 0 2026).1 :=
  ⟨(C9_unknown_clamp exRaw9 exRosterPdf 2026 2026 (by decide)).2.1,
   (C9_unknown_clamp exRaw9 exRosterPdf 2026 2026 (by decide)).2.2.1,
   (C9_unknown_clamp exRaw9 exRosterPdf 2026 2026 (by decide)).2.2.2.1⟩

end PbsMvp
